import Mathlib

/-!
# better-recall — verification of the storage, settings, deck-management and
translation layers, and of the spec-modelled scheduling engine.

The TypeScript sources embedded here:

* `src/data/deck-file.ts` — deck (de)serialization: `parseDeckFile`,
  `stringifyDeckFile`, `escapePipe`, `unescapePipe`.
* `src/data/decks-manager.ts` (an unnamed source file) — `DecksManager`:
  `create`, `updateInformation`, `addCard`, `updateCardContent`, `removeCard`,
  `isValidFileName`.
* `src/ui/settings/SettingsTab.ts` — the parameter `onChange` handlers,
  `parseStringToArray`, `isStringValidArray`.
* `src/ui/modals/EditCardsModal.ts` — the due/status display decision.
* `src/util/translation.ts` — the empty-text guard of `translateText`.

The scheduling engine itself (`src/spaced-repetition`: `review`, `isDue`,
the Anki parameter validation) is not among the provided sources; those
definitions are modelled from the spec and are marked as such.

Modelling conventions for the JavaScript runtime:

* JS strings are Lean `String`s (lists of characters).  JS `.length` counts
  UTF-16 code units while Lean counts characters; they agree outside
  surrogate pairs.
* JS numbers are modelled as exact rationals (`ℚ`); `NaN` is modelled by
  `Option.none` where it can occur.  `Number.prototype.toString` is modelled
  by plain decimal rendering, which agrees with JS for finite decimal values
  in the plain-notation range (|x| < 1e21 and at most 6 fraction digits);
  theorems about printing carry hypotheses confining them to that range.
* `parseFloat` / `parseInt` are modelled with their prefix semantics
  (leading-whitespace skip, optional sign, longest digit run, `NaN` when no
  digit is found).  Exponent notation, `Infinity` and hex literals are not
  modelled; no theorem below depends on such inputs.
* `new Date(s).toISOString()` is modelled as the identity on strict
  ISO-8601 UTC strings (the only date format the plugin ever writes, cf.
  `DecksManager.saveDeckToFile`), and as the out-of-domain marker
  `"Invalid Date"` elsewhere; every theorem that touches a present date
  carries an `isIsoUTC` hypothesis confining it to the faithful domain.
-/

/- `Rat`'s arithmetic is `@[irreducible]` in Batteries, which blocks
`decide` on concrete rationals; restore the default transparency locally
so that concrete (de)serializations evaluate. -/
attribute [local semireducible] Rat.mul Rat.add Rat.sub Rat.inv

/-! ## JavaScript string primitives -/

/-- The whitespace characters recognised by JS `String.prototype.trim`
(the common ASCII subset; exotic Unicode spaces are not used anywhere in
the repository). -/
def jsWS (c : Char) : Bool :=
  c = ' ' || c = '\t' || c = '\n' || c = '\r' || c = '\x0b' || c = '\x0c'

/-- `String.prototype.trim` on a character list: drop whitespace from both
ends. -/
def trimChars (l : List Char) : List Char :=
  ((l.dropWhile jsWS).reverse.dropWhile jsWS).reverse

/-- `String.prototype.trim`. -/
def jsTrim (s : String) : String := ⟨trimChars s.data⟩

/-- `String.prototype.split(sep)` for a one-character separator. -/
def splitOnChar (sep : Char) : List Char → List (List Char)
  | [] => [[]]
  | c :: cs =>
    match splitOnChar sep cs with
    | [] => if c = sep then [[], []] else [[c]]
    | h :: t => if c = sep then [] :: h :: t else (c :: h) :: t

/-- `Array.prototype.join(sep)` for a one-character separator. -/
def joinSep (sep : Char) : List (List Char) → List Char
  | [] => []
  | [l] => l
  | l :: ls => l ++ sep :: joinSep sep ls

/-! ## JavaScript number printing and parsing -/

/-- The character for a decimal digit. -/
def digitChar (d : Nat) : Char := Char.ofNat (48 + d)

/-- Numeric value of a digit character. -/
def digitVal (c : Char) : Nat := c.toNat - 48

/-- Decimal digits of a natural number (most significant first),
accumulator-passing and structurally recursive on an explicit fuel so
that concrete printing reduces in the kernel; `natDigits` supplies fuel
`n + 1`, which is always sufficient. -/
def natDigitsAux : Nat → Nat → List Char → List Char
  | 0, _, acc => acc
  | fuel + 1, n, acc =>
    if n < 10 then digitChar n :: acc
    else natDigitsAux fuel (n / 10) (digitChar (n % 10) :: acc)

/-- Decimal digits of a natural number (most significant first). -/
def natDigits (n : Nat) : List Char := natDigitsAux (n + 1) n []

/-- Value of a digit run, as computed by a left fold (this is how both
`parseInt` and `parseFloat` accumulate digits). -/
def digitsToNat (l : List Char) : Nat :=
  l.foldl (fun a c => a * 10 + digitVal c) 0

/-- Characters of a (possibly negative) integer, as JS prints it. -/
def intChars (m : Int) : List Char :=
  (if m < 0 then ['-'] else []) ++ natDigits m.natAbs

/-- The fraction digits of `f` padded on the left with zeros to width `e`. -/
def fracPad (e : Nat) (f : Nat) : List Char :=
  List.replicate (e - (natDigits f).length) '0' ++ natDigits f

/-- Plain decimal rendering of `m / 10^e`. -/
def printDecimalChars (m : Int) (e : Nat) : List Char :=
  if e = 0 then intChars m
  else
    (if m < 0 then ['-'] else []) ++
      natDigits (m.natAbs / 10 ^ e) ++ '.' :: fracPad e (m.natAbs % 10 ^ e)

/-- The smallest exponent `e ≤ 20` such that `q * 10^e` is an integer, when
one exists (i.e. when `q` has a short finite decimal expansion). -/
def decimalExp (q : ℚ) : Option Nat :=
  (List.range 21).find? (fun e => (q * 10 ^ e).den = 1)

/-- Models `Number.prototype.toString` (base 10).  Faithful to JS for values
with a finite decimal expansion in the plain-notation range; values outside
that domain are rendered as an explicit out-of-domain marker, and every
theorem that prints numbers carries a `decimalExp`-representability
hypothesis keeping it on the faithful domain. -/
def printNum (q : ℚ) : String :=
  match decimalExp q with
  | some e => ⟨printDecimalChars (q * 10 ^ e).num e⟩
  | none => "NONDECIMAL"

/-- Longest digit run at the head of the input together with the rest. -/
def takeDigits (l : List Char) : List Char × List Char :=
  (l.takeWhile Char.isDigit, l.dropWhile Char.isDigit)

/-- The optional leading sign of a JS numeric literal: `true` means negative,
paired with the remaining input. -/
def parseSignChars : List Char → Bool × List Char
  | [] => (false, [])
  | c :: r =>
    if c = '-' then (true, r) else if c = '+' then (false, r) else (false, c :: r)

/-- Models JS `parseFloat` (without exponent notation / `Infinity` / hex):
skip leading whitespace, optional sign, digit run, optional `'.'` and a
second digit run; `none` models `NaN` (no digit found at all).  Trailing
garbage is ignored, as in JS. -/
def parseFloatChars (l : List Char) : Option ℚ :=
  let s := parseSignChars (l.dropWhile jsWS)
  let p := takeDigits s.2
  let frac : List Char :=
    match p.2 with
    | c :: r => if c = '.' then (takeDigits r).1 else []
    | [] => []
  if p.1 = [] ∧ frac = [] then none
  else
    let mag : ℚ := (digitsToNat p.1 : ℚ) + (digitsToNat frac : ℚ) / 10 ^ frac.length
    some (if s.1 then -mag else mag)

/-- Models JS `parseInt(s, 10)`: skip leading whitespace, optional sign,
longest digit run; `none` models `NaN`.  Trailing garbage is ignored. -/
def parseIntChars (l : List Char) : Option Int :=
  let s := parseSignChars (l.dropWhile jsWS)
  let ds := (takeDigits s.2).1
  if ds = [] then none
  else some (if s.1 then -(digitsToNat ds : Int) else (digitsToNat ds : Int))

/-! ## Digit round-trip lemmas -/

theorem natDigitsAux_eq_append :
    ∀ {n f : Nat}, n < f → ∀ acc, natDigitsAux f n acc = natDigits n ++ acc := by
  intro n
  induction n using Nat.strong_induction_on with
  | _ n ih =>
    intro f hf acc
    obtain ⟨g, rfl⟩ : ∃ g, f = g + 1 := ⟨f - 1, by omega⟩
    by_cases h : n < 10
    · rw [natDigitsAux, if_pos h, natDigits, natDigitsAux, if_pos h]
      rfl
    · have hd : n / 10 < n := Nat.div_lt_self (by omega) (by omega)
      have hg : n / 10 < g := by omega
      have hn1 : n / 10 < n + 1 := by omega
      have hL : natDigitsAux (g + 1) n acc
          = natDigits (n / 10) ++ (digitChar (n % 10) :: acc) := by
        rw [natDigitsAux, if_neg h]
        exact ih _ hd hg _
      have hR : natDigits n = natDigits (n / 10) ++ [digitChar (n % 10)] := by
        rw [natDigits, natDigitsAux, if_neg h]
        exact ih _ hd hd _
      rw [hL, hR, List.append_assoc]
      rfl

theorem natDigits_step (n : Nat) :
    natDigits n
      = if n < 10 then [digitChar n]
        else natDigits (n / 10) ++ [digitChar (n % 10)] := by
  by_cases h : n < 10
  · rw [natDigits, natDigitsAux, if_pos h, if_pos h]
  · have hd : n / 10 < n := Nat.div_lt_self (by omega) (by omega)
    rw [natDigits, natDigitsAux, if_neg h, if_neg h,
      natDigitsAux_eq_append (by omega : n / 10 < n)]

theorem digitVal_digitChar {d : Nat} (h : d < 10) : digitVal (digitChar d) = d := by
  interval_cases d <;> decide

theorem natDigits_ne_nil (n : Nat) : natDigits n ≠ [] := by
  rw [natDigits_step]
  split
  · simp
  · simp

theorem foldl_digits_natDigits (n : Nat) :
    ∀ a : Nat, (natDigits n).foldl (fun a c => a * 10 + digitVal c) a
      = a * 10 ^ (natDigits n).length + n := by
  induction n using Nat.strong_induction_on with
  | _ n ih =>
    intro a
    by_cases h : n < 10
    · rw [natDigits_step, if_pos h]
      simp [digitVal_digitChar h]
    · have hd : n / 10 < n := Nat.div_lt_self (by omega) (by omega)
      have hrep : natDigits n = natDigits (n / 10) ++ [digitChar (n % 10)] := by
        rw [natDigits_step, if_neg h]
      rw [hrep, List.foldl_append, ih _ hd a, List.length_append]
      simp only [List.foldl_cons, List.foldl_nil, List.length_singleton]
      rw [digitVal_digitChar (Nat.mod_lt _ (by omega))]
      have : 10 ^ ((natDigits (n / 10)).length + 1)
          = 10 ^ (natDigits (n / 10)).length * 10 := by ring
      rw [this]
      have hn : n / 10 * 10 + n % 10 = n := by omega
      ring_nf
      omega

theorem digitsToNat_nil : digitsToNat [] = 0 := rfl

theorem digitsToNat_natDigits (n : Nat) : digitsToNat (natDigits n) = n := by
  rw [digitsToNat, foldl_digits_natDigits]
  simp

theorem mem_natDigits (n : Nat) :
    ∀ c ∈ natDigits n, ∃ d, d < 10 ∧ c = digitChar d := by
  induction n using Nat.strong_induction_on with
  | _ n ih =>
    intro c hc
    by_cases h : n < 10
    · rw [natDigits_step, if_pos h] at hc
      simp only [List.mem_singleton] at hc
      exact ⟨n, h, hc⟩
    · have hd : n / 10 < n := Nat.div_lt_self (by omega) (by omega)
      rw [natDigits_step, if_neg h] at hc
      rcases List.mem_append.1 hc with h1 | h1
      · exact ih _ hd c h1
      · simp only [List.mem_singleton] at h1
        exact ⟨n % 10, Nat.mod_lt _ (by omega), h1⟩

theorem digitChar_isDigit {d : Nat} (h : d < 10) : (digitChar d).isDigit = true := by
  interval_cases d <;> decide

theorem mem_natDigits_isDigit (n : Nat) : ∀ c ∈ natDigits n, c.isDigit = true := by
  intro c hc
  obtain ⟨d, hd, rfl⟩ := mem_natDigits n c hc
  exact digitChar_isDigit hd


/-! ## Character classes -/

/-- A character that survives the deck-file line machinery untouched:
not whitespace (for `trim`), not a backslash, a pipe or a newline. -/
def plainChar (c : Char) : Bool :=
  !jsWS c && !(c = '\\') && !(c = '|') && !(c = '\n')

theorem digitChar_facts {d : Nat} (h : d < 10) :
    plainChar (digitChar d) = true ∧ digitChar d ≠ '.' ∧ digitChar d ≠ '-' ∧
      digitChar d ≠ '+' ∧ jsWS (digitChar d) = false := by
  interval_cases d <;> exact ⟨by decide, by decide, by decide, by decide, by decide⟩

theorem mem_natDigits_plain (n : Nat) : ∀ c ∈ natDigits n, plainChar c = true := by
  intro c hc
  obtain ⟨d, hd, rfl⟩ := mem_natDigits n c hc
  exact (digitChar_facts hd).1

theorem mem_natDigits_not_ws (n : Nat) : ∀ c ∈ natDigits n, jsWS c = false := by
  intro c hc
  obtain ⟨d, hd, rfl⟩ := mem_natDigits n c hc
  exact (digitChar_facts hd).2.2.2.2

theorem dropWhile_eq_self_of_all {p : Char → Bool} {l : List Char}
    (h : ∀ c ∈ l, p c = false) : l.dropWhile p = l := by
  cases l with
  | nil => rfl
  | cons a t => simp [List.dropWhile_cons, h a (by simp)]

theorem trimChars_of_all_not_ws {l : List Char} (h : ∀ c ∈ l, jsWS c = false) :
    trimChars l = l := by
  have h1 : l.dropWhile jsWS = l := dropWhile_eq_self_of_all h
  have h2 : l.reverse.dropWhile jsWS = l.reverse :=
    dropWhile_eq_self_of_all (fun c hc => h c (List.mem_reverse.1 hc))
  rw [trimChars, h1, h2, List.reverse_reverse]

/-! ## takeDigits lemmas -/

theorem takeDigits_all {l : List Char} (h : ∀ c ∈ l, c.isDigit = true) :
    takeDigits l = (l, []) := by
  induction l with
  | nil => rfl
  | cons c t ih =>
    have hc := h c (by simp)
    have ht : ∀ x ∈ t, x.isDigit = true := fun x hx => h x (by simp [hx])
    have hih := ih ht
    simp only [takeDigits, Prod.mk.injEq] at hih ⊢
    simp [List.takeWhile_cons, List.dropWhile_cons, hc, hih.1, hih.2]

theorem takeDigits_append_stop {l : List Char} (h : ∀ c ∈ l, c.isDigit = true)
    (y : Char) (hy : y.isDigit = false) (t : List Char) :
    takeDigits (l ++ y :: t) = (l, y :: t) := by
  induction l with
  | nil => simp [takeDigits, List.takeWhile_cons, List.dropWhile_cons, hy]
  | cons c r ih =>
    have hc := h c (by simp)
    have hr : ∀ x ∈ r, x.isDigit = true := fun x hx => h x (by simp [hx])
    have hih := ih hr
    simp only [takeDigits, Prod.mk.injEq, List.cons_append] at hih ⊢
    simp [List.takeWhile_cons, List.dropWhile_cons, hc, hih.1, hih.2]

/-! ## Number printing / parsing round trip -/

theorem digitsToNat_replicate_zero (k : Nat) (ds : List Char) :
    digitsToNat (List.replicate k '0' ++ ds) = digitsToNat ds := by
  induction k with
  | zero => simp
  | succ n ih =>
    rw [List.replicate_succ, List.cons_append]
    show List.foldl _ 0 _ = _
    rw [List.foldl_cons]
    have h0 : (0 * 10 + digitVal '0') = 0 := by decide
    rw [h0]
    exact ih

theorem natDigits_length_le : ∀ {n e : Nat}, 1 ≤ e → n < 10 ^ e →
    (natDigits n).length ≤ e := by
  intro n
  induction n using Nat.strong_induction_on with
  | _ n ih =>
    intro e he h
    by_cases h10 : n < 10
    · rw [natDigits_step, if_pos h10]
      simpa using he
    · have hd : n / 10 < n := Nat.div_lt_self (by omega) (by omega)
      have hrep : natDigits n = natDigits (n / 10) ++ [digitChar (n % 10)] := by
        rw [natDigits_step, if_neg h10]
      have he2 : 2 ≤ e := by
        rcases Nat.lt_or_ge e 2 with h2 | h2
        · interval_cases e <;> omega
        · exact h2
      have hdiv : n / 10 < 10 ^ (e - 1) := by
        rw [Nat.div_lt_iff_lt_mul (by omega)]
        have : 10 ^ (e - 1) * 10 = 10 ^ e := by
          rw [← pow_succ]
          congr 1
          omega
        omega
      have := ih _ hd (e := e - 1) (by omega) hdiv
      rw [hrep, List.length_append]
      simp only [List.length_singleton]
      omega

theorem fracPad_length {e f : Nat} (he : 1 ≤ e) (h : f < 10 ^ e) :
    (fracPad e f).length = e := by
  rw [fracPad, List.length_append, List.length_replicate]
  have := natDigits_length_le he h
  omega

theorem digitsToNat_fracPad {e f : Nat} : digitsToNat (fracPad e f) = f := by
  rw [fracPad, digitsToNat_replicate_zero, digitsToNat_natDigits]

theorem mem_fracPad (e f : Nat) :
    ∀ c ∈ fracPad e f, ∃ d, d < 10 ∧ c = digitChar d := by
  intro c hc
  rw [fracPad] at hc
  rcases List.mem_append.1 hc with h1 | h1
  · have := List.eq_of_mem_replicate h1
    exact ⟨0, by omega, by rw [this]; rfl⟩
  · exact mem_natDigits f c h1

/-- Core computation of `parseFloatChars` on a signed literal with a
fraction part. -/
theorem parseFloatChars_frac_run (neg : Bool) (ip fp : List Char)
    (hip : ∀ c ∈ ip, ∃ d, d < 10 ∧ c = digitChar d)
    (hfp : ∀ c ∈ fp, ∃ d, d < 10 ∧ c = digitChar d)
    (hne : ip ≠ []) :
    parseFloatChars ((if neg then ['-'] else []) ++ ip ++ '.' :: fp)
      = some (if neg
          then -((digitsToNat ip : ℚ) + (digitsToNat fp : ℚ) / 10 ^ fp.length)
          else (digitsToNat ip : ℚ) + (digitsToNat fp : ℚ) / 10 ^ fp.length) := by
  obtain ⟨c, ip', rfl⟩ := List.exists_cons_of_ne_nil hne
  obtain ⟨d, hd, rfl⟩ := hip c (List.mem_cons_self c ip')
  have hip' : ∀ x ∈ digitChar d :: ip', x.isDigit = true := by
    intro x hx
    obtain ⟨d', hd', rfl⟩ := hip x hx
    exact digitChar_isDigit hd'
  have hfp' : ∀ x ∈ fp, x.isDigit = true := by
    intro x hx
    obtain ⟨d', hd', rfl⟩ := hfp x hx
    exact digitChar_isDigit hd'
  have hdf := digitChar_facts hd
  have st3 : takeDigits (digitChar d :: (ip' ++ '.' :: fp)) = (digitChar d :: ip', '.' :: fp) := by
    have := takeDigits_append_stop hip' '.' (by decide) fp
    rwa [List.cons_append] at this
  have st4 : takeDigits fp = (fp, []) := takeDigits_all hfp'
  cases neg with
  | true =>
    show parseFloatChars ('-' :: digitChar d :: (ip' ++ '.' :: fp)) = _
    have st1 : List.dropWhile jsWS ('-' :: digitChar d :: (ip' ++ '.' :: fp))
        = '-' :: digitChar d :: (ip' ++ '.' :: fp) := by
      simp [List.dropWhile_cons, jsWS]
    have st2 : parseSignChars ('-' :: digitChar d :: (ip' ++ '.' :: fp))
        = (true, digitChar d :: (ip' ++ '.' :: fp)) := by
      simp [parseSignChars]
    rw [parseFloatChars, st1, st2]
    simp [st3, st4]
  | false =>
    show parseFloatChars (digitChar d :: (ip' ++ '.' :: fp)) = _
    have st1 : List.dropWhile jsWS (digitChar d :: (ip' ++ '.' :: fp))
        = digitChar d :: (ip' ++ '.' :: fp) := by
      simp [List.dropWhile_cons, hdf.2.2.2.2]
    have st2 : parseSignChars (digitChar d :: (ip' ++ '.' :: fp))
        = (false, digitChar d :: (ip' ++ '.' :: fp)) := by
      simp [parseSignChars, hdf.2.2.1, hdf.2.2.2.1]
    rw [parseFloatChars, st1, st2]
    simp [st3, st4]

/-- Core computation of `parseFloatChars` on a signed integer literal. -/
theorem parseFloatChars_int_run (neg : Bool) (ip : List Char)
    (hip : ∀ c ∈ ip, ∃ d, d < 10 ∧ c = digitChar d)
    (hne : ip ≠ []) :
    parseFloatChars ((if neg then ['-'] else []) ++ ip)
      = some (if neg then -(digitsToNat ip : ℚ) else (digitsToNat ip : ℚ)) := by
  obtain ⟨c, ip', rfl⟩ := List.exists_cons_of_ne_nil hne
  obtain ⟨d, hd, rfl⟩ := hip c (List.mem_cons_self c ip')
  have hip' : ∀ x ∈ digitChar d :: ip', x.isDigit = true := by
    intro x hx
    obtain ⟨d', hd', rfl⟩ := hip x hx
    exact digitChar_isDigit hd'
  have hdf := digitChar_facts hd
  have st3 : takeDigits (digitChar d :: ip') = (digitChar d :: ip', []) :=
    takeDigits_all hip'
  cases neg with
  | true =>
    show parseFloatChars ('-' :: digitChar d :: ip') = _
    have st1 : List.dropWhile jsWS ('-' :: digitChar d :: ip')
        = '-' :: digitChar d :: ip' := by
      simp [List.dropWhile_cons, jsWS]
    have st2 : parseSignChars ('-' :: digitChar d :: ip')
        = (true, digitChar d :: ip') := by
      simp [parseSignChars]
    rw [parseFloatChars, st1, st2]
    simp [st3, digitsToNat_nil]
  | false =>
    show parseFloatChars (digitChar d :: ip') = _
    have st1 : List.dropWhile jsWS (digitChar d :: ip') = digitChar d :: ip' := by
      simp [List.dropWhile_cons, hdf.2.2.2.2]
    have st2 : parseSignChars (digitChar d :: ip') = (false, digitChar d :: ip') := by
      simp [parseSignChars, hdf.2.2.1, hdf.2.2.2.1]
    rw [parseFloatChars, st1, st2]
    simp [st3, digitsToNat_nil]

/-- Core computation of `parseIntChars` on a signed integer literal. -/
theorem parseIntChars_int_run (neg : Bool) (ip : List Char)
    (hip : ∀ c ∈ ip, ∃ d, d < 10 ∧ c = digitChar d)
    (hne : ip ≠ []) :
    parseIntChars ((if neg then ['-'] else []) ++ ip)
      = some (if neg then -(digitsToNat ip : Int) else (digitsToNat ip : Int)) := by
  obtain ⟨c, ip', rfl⟩ := List.exists_cons_of_ne_nil hne
  obtain ⟨d, hd, rfl⟩ := hip c (List.mem_cons_self c ip')
  have hip' : ∀ x ∈ digitChar d :: ip', x.isDigit = true := by
    intro x hx
    obtain ⟨d', hd', rfl⟩ := hip x hx
    exact digitChar_isDigit hd'
  have hdf := digitChar_facts hd
  have st3 : takeDigits (digitChar d :: ip') = (digitChar d :: ip', []) :=
    takeDigits_all hip'
  cases neg with
  | true =>
    show parseIntChars ('-' :: digitChar d :: ip') = _
    have st1 : List.dropWhile jsWS ('-' :: digitChar d :: ip')
        = '-' :: digitChar d :: ip' := by
      simp [List.dropWhile_cons, jsWS]
    have st2 : parseSignChars ('-' :: digitChar d :: ip')
        = (true, digitChar d :: ip') := by
      simp [parseSignChars]
    rw [parseIntChars, st1, st2]
    simp [st3, digitsToNat_nil]
  | false =>
    show parseIntChars (digitChar d :: ip') = _
    have st1 : List.dropWhile jsWS (digitChar d :: ip') = digitChar d :: ip' := by
      simp [List.dropWhile_cons, hdf.2.2.2.2]
    have st2 : parseSignChars (digitChar d :: ip') = (false, digitChar d :: ip') := by
      simp [parseSignChars, hdf.2.2.1, hdf.2.2.2.1]
    rw [parseIntChars, st1, st2]
    simp [st3, digitsToNat_nil]

theorem parseFloatChars_printDecimalChars (m : Int) (e : Nat) :
    parseFloatChars (printDecimalChars m e) = some ((m : ℚ) / 10 ^ e) := by
  by_cases he : e = 0
  · subst he
    rw [printDecimalChars, if_pos rfl, intChars]
    by_cases hm : m < 0
    · rw [if_pos hm]
      have hrun := parseFloatChars_int_run true (natDigits m.natAbs)
        (mem_natDigits _) (natDigits_ne_nil _)
      simp only [if_pos, List.singleton_append, digitsToNat_natDigits] at hrun
      simp only [List.singleton_append]
      rw [hrun, pow_zero, div_one]
      have h4 : ((m.natAbs : ℚ)) = -(m : ℚ) := by
        rw [Int.cast_natAbs]
        exact_mod_cast abs_of_neg hm
      rw [h4, neg_neg]
    · rw [if_neg hm]
      have hrun := parseFloatChars_int_run false (natDigits m.natAbs)
        (mem_natDigits _) (natDigits_ne_nil _)
      simp only [List.nil_append, digitsToNat_natDigits, Bool.false_eq_true,
        if_false] at hrun
      simp only [List.nil_append]
      rw [hrun, pow_zero, div_one]
      have h4 : ((m.natAbs : ℚ)) = (m : ℚ) := by
        rw [Int.cast_natAbs]
        exact_mod_cast abs_of_nonneg (not_lt.1 hm)
      rw [h4]
  · rw [printDecimalChars, if_neg he]
    have h1e : 1 ≤ e := Nat.one_le_iff_ne_zero.2 he
    have hpow : (0:Nat) < 10 ^ e := by positivity
    have hfplt : m.natAbs % 10 ^ e < 10 ^ e := Nat.mod_lt _ hpow
    have hE : ((10:ℚ)) ^ e ≠ 0 := by positivity
    have key : (m.natAbs : ℚ)
        = 10 ^ e * (↑(m.natAbs / 10 ^ e) : ℚ) + (↑(m.natAbs % 10 ^ e) : ℚ) := by
      exact_mod_cast (Nat.div_add_mod m.natAbs (10 ^ e)).symm
    have combine : (↑(m.natAbs / 10 ^ e) : ℚ) + (↑(m.natAbs % 10 ^ e) : ℚ) / 10 ^ e
        = (m.natAbs : ℚ) / 10 ^ e := by
      rw [key]
      field_simp
      ring
    by_cases hm : m < 0
    · rw [if_pos hm]
      have hrun := parseFloatChars_frac_run true (natDigits (m.natAbs / 10 ^ e))
        (fracPad e (m.natAbs % 10 ^ e)) (mem_natDigits _) (mem_fracPad _ _)
        (natDigits_ne_nil _)
      simp only [if_pos, List.singleton_append, digitsToNat_natDigits,
        digitsToNat_fracPad, fracPad_length h1e hfplt] at hrun
      simp only [List.singleton_append]
      rw [hrun, combine]
      have h4 : ((m.natAbs : ℚ)) = -(m : ℚ) := by
        rw [Int.cast_natAbs]
        exact_mod_cast abs_of_neg hm
      rw [h4, neg_div, neg_neg]
    · rw [if_neg hm]
      have hrun := parseFloatChars_frac_run false (natDigits (m.natAbs / 10 ^ e))
        (fracPad e (m.natAbs % 10 ^ e)) (mem_natDigits _) (mem_fracPad _ _)
        (natDigits_ne_nil _)
      simp only [List.nil_append, digitsToNat_natDigits, digitsToNat_fracPad,
        fracPad_length h1e hfplt, Bool.false_eq_true, if_false] at hrun
      simp only [List.nil_append]
      rw [hrun, combine]
      have h4 : ((m.natAbs : ℚ)) = (m : ℚ) := by
        rw [Int.cast_natAbs]
        exact_mod_cast abs_of_nonneg (not_lt.1 hm)
      rw [h4]

theorem parseIntChars_intChars (m : Int) : parseIntChars (intChars m) = some m := by
  rw [intChars]
  by_cases hm : m < 0
  · rw [if_pos hm]
    have hrun := parseIntChars_int_run true (natDigits m.natAbs)
      (mem_natDigits _) (natDigits_ne_nil _)
    simp only [if_pos, List.singleton_append, digitsToNat_natDigits] at hrun
    simp only [List.singleton_append]
    rw [hrun]
    have h3 : -(m.natAbs : ℤ) = m := by omega
    rw [h3]
  · rw [if_neg hm]
    have hrun := parseIntChars_int_run false (natDigits m.natAbs)
      (mem_natDigits _) (natDigits_ne_nil _)
    simp only [List.nil_append, digitsToNat_natDigits, Bool.false_eq_true,
      if_false] at hrun
    simp only [List.nil_append]
    rw [hrun]
    have h3 : ((m.natAbs : ℤ)) = m := by omega
    rw [h3]

/-! ## printNum facts -/

theorem decimalExp_den_one {q : ℚ} (h : q.den = 1) : decimalExp q = some 0 := by
  rw [decimalExp, List.range_succ_eq_map]
  exact List.find?_cons_of_pos _ (by simp [h])

theorem decimalExp_spec {q : ℚ} {e : Nat} (h : decimalExp q = some e) :
    (q * 10 ^ e).den = 1 := by
  have := List.find?_some h
  simpa using this

theorem q_eq_num_div {q : ℚ} {e : Nat} (h : (q * 10 ^ e).den = 1) :
    q = ((q * 10 ^ e).num : ℚ) / 10 ^ e := by
  have hE : ((10:ℚ)) ^ e ≠ 0 := by positivity
  have h1 : (((q * 10 ^ e).num : ℚ)) = q * 10 ^ e := by
    conv_rhs => rw [← Rat.num_div_den (q * 10 ^ e)]
    rw [h]
    simp
  rw [h1]
  field_simp

theorem printNum_eq {q : ℚ} {e : Nat} (h : decimalExp q = some e) :
    printNum q = ⟨printDecimalChars (q * 10 ^ e).num e⟩ := by
  simp [printNum, h]

theorem parseFloatChars_printNum {q : ℚ} {e : Nat} (h : decimalExp q = some e) :
    parseFloatChars (printNum q).data = some q := by
  rw [printNum_eq h]
  show parseFloatChars (printDecimalChars (q * 10 ^ e).num e) = some q
  rw [parseFloatChars_printDecimalChars]
  exact congrArg some (q_eq_num_div (decimalExp_spec h)).symm

theorem printNum_den_one_eq {q : ℚ} (h : q.den = 1) :
    printNum q = ⟨intChars q.num⟩ := by
  rw [printNum_eq (decimalExp_den_one h)]
  simp [printDecimalChars]

theorem parseIntChars_printNum {q : ℚ} (h : q.den = 1) :
    parseIntChars (printNum q).data = some q.num := by
  rw [printNum_den_one_eq h]
  exact parseIntChars_intChars q.num

theorem mem_sign_plain {m : Int} {c : Char}
    (hc : c ∈ (if m < 0 then ['-'] else [])) : plainChar c = true := by
  by_cases hm : m < 0
  · rw [if_pos hm] at hc
    simp only [List.mem_singleton] at hc
    subst hc
    decide
  · rw [if_neg hm] at hc
    simp at hc

theorem mem_printDecimalChars_plain (m : Int) (e : Nat) :
    ∀ c ∈ printDecimalChars m e, plainChar c = true := by
  intro c hc
  rw [printDecimalChars] at hc
  by_cases he : e = 0
  · rw [if_pos he, intChars] at hc
    rcases List.mem_append.1 hc with h1 | h1
    · exact mem_sign_plain h1
    · exact mem_natDigits_plain _ c h1
  · rw [if_neg he] at hc
    rcases List.mem_append.1 hc with h1 | h1
    · rcases List.mem_append.1 h1 with h2 | h2
      · exact mem_sign_plain h2
      · exact mem_natDigits_plain _ c h2
    · rcases List.mem_cons.1 h1 with h2 | h2
      · subst h2
        decide
      · obtain ⟨d, hd, rfl⟩ := mem_fracPad _ _ c h2
        exact (digitChar_facts hd).1

theorem printNum_plain {q : ℚ} {e : Nat} (h : decimalExp q = some e) :
    ∀ c ∈ (printNum q).data, plainChar c = true := by
  rw [printNum_eq h]
  exact mem_printDecimalChars_plain _ _

theorem plainChar_not_ws {c : Char} (h : plainChar c = true) : jsWS c = false := by
  rw [plainChar] at h
  rcases hw : jsWS c with _ | _
  · rfl
  · rw [hw] at h
    simp at h

theorem plainChar_spec {c : Char} (h : plainChar c = true) :
    jsWS c = false ∧ c ≠ '\\' ∧ c ≠ '|' ∧ c ≠ '\n' := by
  rw [plainChar] at h
  simp only [Bool.and_eq_true, Bool.not_eq_true', decide_eq_false_iff_not] at h
  exact ⟨h.1.1.1, h.1.1.2, h.1.2, h.2⟩

/-! ## escapePipe / unescapePipe (deck-file.ts lines 135-147) -/

/-- `.replace(/\|/g, '\\|')`: escape every pipe with a backslash. -/
def escPipeChars : List Char → List Char
  | [] => []
  | c :: t => if c = '|' then '\\' :: '|' :: escPipeChars t else c :: escPipeChars t

/-- `.replace(/\n/g, '\\n')`: replace every newline by backslash-`n`. -/
def escNewlineChars : List Char → List Char
  | [] => []
  | c :: t => if c = '\n' then '\\' :: 'n' :: escNewlineChars t else c :: escNewlineChars t

/-- `escapePipe` (deck-file.ts line 138): escape pipes, then newlines.
Note the source escapes neither backslashes themselves nor anything else. -/
def escapePipe (s : String) : String := ⟨escNewlineChars (escPipeChars s.data)⟩

/-- `.replace(/\\\|/g, '|')`: left-to-right replacement of backslash-pipe
by a pipe. -/
def unescPipeChars : List Char → List Char
  | [] => []
  | [c] => [c]
  | c :: d :: t =>
    if c = '\\' ∧ d = '|' then '|' :: unescPipeChars t
    else c :: unescPipeChars (d :: t)

/-- `.replace(/\\n/g, '\n')`: left-to-right replacement of backslash-`n`
by a newline. -/
def unescNewlineChars : List Char → List Char
  | [] => []
  | [c] => [c]
  | c :: d :: t =>
    if c = '\\' ∧ d = 'n' then '\n' :: unescNewlineChars t
    else c :: unescNewlineChars (d :: t)

/-- `unescapePipe` (deck-file.ts line 145): unescape pipes, then newlines. -/
def unescapePipe (s : String) : String := ⟨unescNewlineChars (unescPipeChars s.data)⟩

theorem escNewlineChars_id {l : List Char} (h : ∀ c ∈ l, c ≠ '\n') :
    escNewlineChars l = l := by
  induction l with
  | nil => rfl
  | cons c t ih =>
    rw [escNewlineChars, if_neg (h c (by simp)), ih (fun x hx => h x (by simp [hx]))]

theorem mem_escPipeChars {l : List Char} :
    ∀ c ∈ escPipeChars l, c ∈ l ∨ c = '\\' := by
  induction l with
  | nil => simp [escPipeChars]
  | cons a t ih =>
    intro c hc
    rw [escPipeChars] at hc
    by_cases ha : a = '|'
    · rw [if_pos ha] at hc
      rcases List.mem_cons.1 hc with h1 | h1
      · exact Or.inr h1
      · rcases List.mem_cons.1 h1 with h2 | h2
        · subst ha h2
          simp
        · rcases ih c h2 with h3 | h3
          · exact Or.inl (by simp [h3])
          · exact Or.inr h3
    · rw [if_neg ha] at hc
      rcases List.mem_cons.1 hc with h1 | h1
      · exact Or.inl (by simp [h1])
      · rcases ih c h1 with h3 | h3
        · exact Or.inl (by simp [h3])
        · exact Or.inr h3

theorem unescPipeChars_id {l : List Char} (h : ∀ c ∈ l, c ≠ '\\') :
    unescPipeChars l = l := by
  induction l using unescPipeChars.induct with
  | case1 => rfl
  | case2 c => rfl
  | case3 c d t hcd ih =>
    exact absurd hcd.1 (h c (by simp))
  | case4 c d t hcd ih =>
    rw [unescPipeChars, if_neg hcd, ih (fun x hx => h x (by simp [List.mem_cons.1 hx]))]

theorem unescNewlineChars_id {l : List Char} (h : ∀ c ∈ l, c ≠ '\\') :
    unescNewlineChars l = l := by
  induction l using unescNewlineChars.induct with
  | case1 => rfl
  | case2 c => rfl
  | case3 c d t hcd ih =>
    exact absurd hcd.1 (h c (by simp))
  | case4 c d t hcd ih =>
    rw [unescNewlineChars, if_neg hcd, ih (fun x hx => h x (by simp [List.mem_cons.1 hx]))]

theorem unescapePipe_id {l : List Char} (h : ∀ c ∈ l, c ≠ '\\') :
    unescapePipe ⟨l⟩ = ⟨l⟩ := by
  rw [unescapePipe]
  show (⟨unescNewlineChars (unescPipeChars l)⟩ : String) = ⟨l⟩
  rw [unescPipeChars_id h, unescNewlineChars_id h]

/-! ## The escaped-pipe line splitter (deck-file.ts lines 46-64) -/

/-- The character loop of `parseDeckFile`: split a line on unescaped pipes.
`esc` is the `escaped` flag, `cur` the (reversed) current part. -/
def splitPipesAux : Bool → List Char → List Char → List (List Char)
  | _, cur, [] => [cur.reverse]
  | true, cur, c :: cs => splitPipesAux false (c :: cur) cs
  | false, cur, c :: cs =>
    if c = '\\' then splitPipesAux true cur cs
    else if c = '|' then cur.reverse :: splitPipesAux false [] cs
    else splitPipesAux false (c :: cur) cs

/-- The `parts` array of `parseDeckFile` for one line: each part is pushed
through `trim()`. -/
def splitLineParts (l : List Char) : List String :=
  (splitPipesAux false [] l).map (fun p => ⟨trimChars p⟩)

theorem splitPipesAux_nil (b : Bool) (cur : List Char) :
    splitPipesAux b cur [] = [cur.reverse] := by
  cases b <;> rfl

theorem splitPipesAux_pipe (cur rest : List Char) :
    splitPipesAux false cur ('|' :: rest) = cur.reverse :: splitPipesAux false [] rest := by
  rw [splitPipesAux, if_neg (by decide), if_pos rfl]

theorem splitPipesAux_plain {xs : List Char} (h : ∀ c ∈ xs, c ≠ '\\' ∧ c ≠ '|') :
    ∀ cur rest, splitPipesAux false cur (xs ++ rest)
      = splitPipesAux false (xs.reverse ++ cur) rest := by
  induction xs with
  | nil => simp
  | cons c t ih =>
    intro cur rest
    have hc := h c (by simp)
    rw [List.cons_append, splitPipesAux, if_neg hc.1, if_neg hc.2,
      ih (fun x hx => h x (by simp [hx])) (c :: cur) rest]
    simp

theorem splitPipesAux_escaped {ys : List Char} (h : ∀ c ∈ ys, c ≠ '\\' ∧ c ≠ '\n') :
    ∀ cur rest, splitPipesAux false cur (escPipeChars ys ++ rest)
      = splitPipesAux false (ys.reverse ++ cur) rest := by
  induction ys with
  | nil => simp [escPipeChars]
  | cons c t ih =>
    intro cur rest
    have hc := h c (by simp)
    have iht := ih (fun x hx => h x (by simp [hx]))
    by_cases hp : c = '|'
    · subst hp
      rw [escPipeChars, if_pos rfl, List.cons_append, splitPipesAux, if_pos rfl]
      show splitPipesAux false ('|' :: cur) (escPipeChars t ++ rest) = _
      rw [iht ('|' :: cur) rest]
      simp
    · rw [escPipeChars, if_neg hp, List.cons_append, splitPipesAux, if_neg hc.1,
        if_neg hp, iht (c :: cur) rest]
      simp

theorem splitPipesAux_last {xs : List Char} (h : ∀ c ∈ xs, c ≠ '\\' ∧ c ≠ '|') :
    splitPipesAux false [] xs = [xs] := by
  have h1 := splitPipesAux_plain h [] []
  rw [List.append_nil] at h1
  rw [h1, splitPipesAux_nil]
  simp

/-- Splitting a full ten-field card line: the id and the seven non-content
fields contain no backslash or pipe; the two content fields are
pipe-escaped and contain no backslash or newline. -/
theorem splitPipesAux_line (id fr bk f3 f4 f5 f6 f7 f8 f9 : List Char)
    (hid : ∀ c ∈ id, c ≠ '\\' ∧ c ≠ '|')
    (hfr : ∀ c ∈ fr, c ≠ '\\' ∧ c ≠ '\n')
    (hbk : ∀ c ∈ bk, c ≠ '\\' ∧ c ≠ '\n')
    (h3 : ∀ c ∈ f3, c ≠ '\\' ∧ c ≠ '|')
    (h4 : ∀ c ∈ f4, c ≠ '\\' ∧ c ≠ '|')
    (h5 : ∀ c ∈ f5, c ≠ '\\' ∧ c ≠ '|')
    (h6 : ∀ c ∈ f6, c ≠ '\\' ∧ c ≠ '|')
    (h7 : ∀ c ∈ f7, c ≠ '\\' ∧ c ≠ '|')
    (h8 : ∀ c ∈ f8, c ≠ '\\' ∧ c ≠ '|')
    (h9 : ∀ c ∈ f9, c ≠ '\\' ∧ c ≠ '|') :
    splitPipesAux false []
      (id ++ '|' :: (escPipeChars fr ++ '|' :: (escPipeChars bk ++ '|' ::
        (f3 ++ '|' :: (f4 ++ '|' :: (f5 ++ '|' :: (f6 ++ '|' ::
          (f7 ++ '|' :: (f8 ++ '|' :: f9)))))))))
      = [id, fr, bk, f3, f4, f5, f6, f7, f8, f9] := by
  rw [splitPipesAux_plain hid, splitPipesAux_pipe,
    splitPipesAux_escaped hfr, splitPipesAux_pipe,
    splitPipesAux_escaped hbk, splitPipesAux_pipe,
    splitPipesAux_plain h3, splitPipesAux_pipe,
    splitPipesAux_plain h4, splitPipesAux_pipe,
    splitPipesAux_plain h5, splitPipesAux_pipe,
    splitPipesAux_plain h6, splitPipesAux_pipe,
    splitPipesAux_plain h7, splitPipesAux_pipe,
    splitPipesAux_plain h8, splitPipesAux_pipe,
    splitPipesAux_last h9]
  simp

/-! ## ISO-8601 UTC date strings -/

/-- A decimal digit character, as an explicit ten-way test. -/
def isDigitChar (c : Char) : Bool :=
  c = '0' || c = '1' || c = '2' || c = '3' || c = '4' ||
  c = '5' || c = '6' || c = '7' || c = '8' || c = '9'

theorem isDigitChar_exists {c : Char} (h : isDigitChar c = true) :
    ∃ d, d < 10 ∧ c = digitChar d := by
  simp only [isDigitChar, Bool.or_eq_true, decide_eq_true_eq] at h
  rcases h with ((((((((h | h) | h) | h) | h) | h) | h) | h) | h) | h <;>
    subst h
  · exact ⟨0, by omega, by decide⟩
  · exact ⟨1, by omega, by decide⟩
  · exact ⟨2, by omega, by decide⟩
  · exact ⟨3, by omega, by decide⟩
  · exact ⟨4, by omega, by decide⟩
  · exact ⟨5, by omega, by decide⟩
  · exact ⟨6, by omega, by decide⟩
  · exact ⟨7, by omega, by decide⟩
  · exact ⟨8, by omega, by decide⟩
  · exact ⟨9, by omega, by decide⟩

theorem isDigitChar_plain {c : Char} (h : isDigitChar c = true) :
    plainChar c = true := by
  obtain ⟨d, hd, rfl⟩ := isDigitChar_exists h
  exact (digitChar_facts hd).1

/-- A strict `YYYY-MM-DDTHH:MM:SS.mmmZ` ISO-8601 UTC timestamp (the exact
shape produced by JS `Date.prototype.toISOString`), with conservative field
ranges on which JS parsing is guaranteed to succeed and round-trip. -/
def isIsoUTC (s : String) : Bool :=
  match s.data with
  | [y1, y2, y3, y4, h1, m1, m2, h2, d1, d2, t, hh1, hh2, c1, mi1, mi2, c2,
     ss1, ss2, dot, ms1, ms2, ms3, z] =>
    isDigitChar y1 && isDigitChar y2 && isDigitChar y3 && isDigitChar y4 &&
    h1 = '-' && h2 = '-' && t = 'T' && c1 = ':' && c2 = ':' && dot = '.' && z = 'Z' &&
    isDigitChar m1 && isDigitChar m2 && isDigitChar d1 && isDigitChar d2 &&
    isDigitChar hh1 && isDigitChar hh2 && isDigitChar mi1 && isDigitChar mi2 &&
    isDigitChar ss1 && isDigitChar ss2 &&
    isDigitChar ms1 && isDigitChar ms2 && isDigitChar ms3 &&
    decide (1 ≤ digitVal m1 * 10 + digitVal m2) &&
    decide (digitVal m1 * 10 + digitVal m2 ≤ 12) &&
    decide (1 ≤ digitVal d1 * 10 + digitVal d2) &&
    decide (digitVal d1 * 10 + digitVal d2 ≤ 28) &&
    decide (digitVal hh1 * 10 + digitVal hh2 ≤ 23) &&
    decide (digitVal mi1 * 10 + digitVal mi2 ≤ 59) &&
    decide (digitVal ss1 * 10 + digitVal ss2 ≤ 59)
  | _ => false

/-- Models `new Date(s).toISOString()` (deck-file.ts lines 126-127).  On a
strict ISO-8601 UTC string — the only date format the plugin ever writes
(`DecksManager.saveDeckToFile` stamps `new Date().toISOString()`) — JS
re-parses and re-serializes it unchanged, so the model is the identity
there.  Off that domain JS may renormalize or throw; the model returns an
explicit marker, and every theorem touching a present date carries an
`isIsoUTC` hypothesis confining it to the faithful domain. -/
def jsDateToISOString (s : String) : String :=
  if isIsoUTC s then s else "Invalid Date"

theorem isIsoUTC_plain {s : String} (h : isIsoUTC s = true) :
    (∀ c ∈ s.data, plainChar c = true) ∧ s.data.length = 24 := by
  rw [isIsoUTC] at h
  split at h
  case _ y1 y2 y3 y4 s1 m1 m2 s2 d1 d2 t hh1 hh2 c1 mi1 mi2 c2 ss1 ss2 dot ms1 ms2 ms3 z heq =>
    simp only [Bool.and_eq_true, decide_eq_true_eq] at h
    obtain ⟨⟨⟨⟨⟨⟨⟨⟨⟨⟨⟨⟨⟨⟨⟨⟨⟨⟨⟨⟨⟨⟨⟨⟨⟨⟨⟨⟨⟨⟨hy1, hy2⟩, hy3⟩, hy4⟩, hs1⟩, hs2⟩, ht⟩, hc1⟩, hc2⟩, hdot⟩, hz⟩, hm1⟩, hm2⟩, hd1⟩, hd2⟩, hhh1⟩, hhh2⟩, hmi1⟩, hmi2⟩, hss1⟩, hss2⟩, hms1⟩, hms2⟩, hms3⟩, hr1⟩, hr2⟩, hr3⟩, hr4⟩, hr5⟩, hr6⟩, hr7⟩ := h
    refine ⟨?_, by rw [heq]; rfl⟩
    intro c hc
    rw [heq] at hc
    simp only [List.mem_cons, List.not_mem_nil, or_false] at hc
    rcases hc with rfl|rfl|rfl|rfl|rfl|rfl|rfl|rfl|rfl|rfl|rfl|rfl|rfl|rfl|rfl|rfl|rfl|rfl|rfl|rfl|rfl|rfl|rfl|rfl
    · exact isDigitChar_plain hy1
    · exact isDigitChar_plain hy2
    · exact isDigitChar_plain hy3
    · exact isDigitChar_plain hy4
    · subst hs1; decide
    · exact isDigitChar_plain hm1
    · exact isDigitChar_plain hm2
    · subst hs2; decide
    · exact isDigitChar_plain hd1
    · exact isDigitChar_plain hd2
    · subst ht; decide
    · exact isDigitChar_plain hhh1
    · exact isDigitChar_plain hhh2
    · subst hc1; decide
    · exact isDigitChar_plain hmi1
    · exact isDigitChar_plain hmi2
    · subst hc2; decide
    · exact isDigitChar_plain hss1
    · exact isDigitChar_plain hss2
    · subst hdot; decide
    · exact isDigitChar_plain hms1
    · exact isDigitChar_plain hms2
    · exact isDigitChar_plain hms3
    · subst hz; decide
  · exact absurd h (by decide)

theorem isIsoUTC_ne {s : String} (h : isIsoUTC s = true) :
    s ≠ "" ∧ s ≠ "null" := by
  have hlen := (isIsoUTC_plain h).2
  constructor
  · intro hs
    rw [hs] at hlen
    exact absurd hlen (by decide)
  · intro hs
    rw [hs] at hlen
    exact absurd hlen (by decide)

/-! ## The deck-file card model (deck-file.ts)

`CardJsonStructure` from `src/data/deck.ts`: the per-card record stored in
a deck file.  The nested `content: {front, back}` object is flattened to
two fields.  Numeric fields are exact rationals; `state` is `Option ℚ`
because `parseInt` can produce `NaN` for a malformed state field; date
fields are the stored strings (`Option` models `undefined`). -/

inductive CardType where
  | BASIC
deriving DecidableEq

structure CardJson where
  type : CardType
  front : String
  back : String
  state : Option ℚ
  easeFactor : ℚ
  interval : ℚ
  iteration : ℚ
  stepIndex : ℚ
  lastReviewDate : Option String
  nextReviewDate : Option String
deriving DecidableEq

/-- `card.state.toString()` (deck-file.ts line 121); `NaN` prints as
`"NaN"`. -/
def stateToString : Option ℚ → String
  | none => "NaN"
  | some q => printNum q

/-- The date serialization of `stringifyDeckFile` (deck-file.ts lines
126-127): a falsy (`undefined` or empty) date becomes `'null'`, a present
one is re-serialized through `new Date(...).toISOString()`. -/
def dateFieldString : Option String → String
  | none => "null"
  | some s => if s = "" then "null" else jsDateToISOString s

/-- One card line of `stringifyDeckFile` (deck-file.ts lines 117-128):
the ten fields joined with `'|'`. -/
def cardLineChars (id : String) (c : CardJson) : List Char :=
  joinSep '|'
    [id.data, (escapePipe c.front).data, (escapePipe c.back).data,
     (stateToString c.state).data, (printNum c.easeFactor).data,
     (printNum c.interval).data, (printNum c.iteration).data,
     (printNum c.stepIndex).data,
     (dateFieldString c.lastReviewDate).data,
     (dateFieldString c.nextReviewDate).data]

/-- The card section of the file produced by `stringifyDeckFile`
(deck-file.ts line 132): the card lines joined with newlines, plus the
trailing newline of the template.  The YAML frontmatter above it is
produced by the external `stringifyYaml` and carries no card data. -/
def stringifyDeckCards (cards : List (String × CardJson)) : String :=
  ⟨joinSep '\n' (cards.map (fun p => cardLineChars p.1 p.2)) ++ ['\n']⟩

/-- The per-line card builder of `parseDeckFile` (deck-file.ts lines
66-87): needs at least ten parts, ignores extras, silently defaults
malformed numeric fields (`|| 2.5` for easeFactor, `|| 0` for the rest),
and maps empty or `'null'` date fields to absent. -/
def parseCardLine (parts : List String) : Option (String × CardJson) :=
  match parts with
  | id :: front :: back :: stateStr :: easeFactorStr :: intervalStr ::
      iterationStr :: stepIndexStr :: lastReviewDateStr :: nextReviewDateStr :: _ =>
    some (id,
      { type := CardType.BASIC
        front := unescapePipe front
        back := unescapePipe back
        state := (parseIntChars stateStr.data).map (fun i => (i : ℚ))
        easeFactor :=
          match parseFloatChars easeFactorStr.data with
          | none => 5/2
          | some q => if q = 0 then 5/2 else q
        interval := (parseFloatChars intervalStr.data).getD 0
        iteration := (((parseIntChars iterationStr.data).getD 0 : ℤ) : ℚ)
        stepIndex := (((parseIntChars stepIndexStr.data).getD 0 : ℤ) : ℚ)
        lastReviewDate :=
          if lastReviewDateStr = "" ∨ lastReviewDateStr = "null" then none
          else some lastReviewDateStr
        nextReviewDate :=
          if nextReviewDateStr = "" ∨ nextReviewDateStr = "null" then none
          else some nextReviewDateStr })
  | _ => none

/-- The card section of `parseDeckFile` (deck-file.ts lines 39-89): trim
the section, split into lines, drop blank lines, split each line on
unescaped pipes (trimming every part), skip lines with fewer than ten
parts, and build one card per remaining line.  Entries are returned in
line order; the surrounding `cards` object keys them by id (a later line
with the same id overwrites an earlier one). -/
def parseDeckCards (content : String) : List (String × CardJson) :=
  if (trimChars content.data).isEmpty then []
  else
    ((splitOnChar '\n' (trimChars content.data)).filter
        (fun l => !(trimChars l).isEmpty)).filterMap
      (fun l => parseCardLine (splitLineParts l))

/-! ## Storage-cleanliness: the domain on which the deck-file layer is
injective.  Outside it the layer mangles data (see the counterexamples
below). -/

/-- No leading or trailing JS whitespace (so `trim` is the identity). -/
def cleanEnds (l : List Char) : Bool :=
  (match l.head? with | some c => !jsWS c | none => true) &&
  (match l.getLast? with | some c => !jsWS c | none => true)

/-- Card text that the escape/split/unescape pipeline preserves: no
backslash (the escaper does not escape backslashes), no newline (escaped
to a literal `\n` that the splitter collapses to `n`), and no whitespace
at the ends (parts are trimmed). -/
def cleanText (s : String) : Bool :=
  s.data.all (fun c => !(c = '\\') && !(c = '\n')) && cleanEnds s.data

/-- A card id that survives the line format: additionally pipe-free,
since ids are never escaped. -/
def cleanKey (s : String) : Bool :=
  s.data.all (fun c => !(c = '\\') && !(c = '|') && !(c = '\n')) && cleanEnds s.data

/-- `state` must be an integer-valued number (or `NaN`, which prints as
`"NaN"` and parses back to `NaN`). -/
def cleanState : Option ℚ → Bool
  | none => true
  | some q => q.den == 1

/-- Stored dates must be strict ISO-8601 UTC strings — the only format the
plugin writes. -/
def cleanDate : Option String → Bool
  | none => true
  | some s => isIsoUTC s

/-- A card on which serialize-then-parse is the identity: clean text and
id, integer state/iteration/stepIndex, finite-decimal nonzero easeFactor
(zero falls prey to the `|| 2.5` default), finite-decimal interval, and
ISO dates. -/
def cleanCard (c : CardJson) : Bool :=
  cleanText c.front && cleanText c.back && cleanState c.state &&
  (decimalExp c.easeFactor).isSome && !(c.easeFactor == 0) &&
  (decimalExp c.interval).isSome &&
  (c.iteration.den == 1) && (c.stepIndex.den == 1) &&
  cleanDate c.lastReviewDate && cleanDate c.nextReviewDate

theorem trimChars_of_cleanEnds {l : List Char} (h : cleanEnds l = true) :
    trimChars l = l := by
  rw [cleanEnds, Bool.and_eq_true] at h
  have h1 : l.dropWhile jsWS = l := by
    cases l with
    | nil => rfl
    | cons a t =>
      have ha := h.1
      simp only [List.head?_cons, Bool.not_eq_true'] at ha
      simp [List.dropWhile_cons, ha]
  have h2 : l.reverse.dropWhile jsWS = l.reverse := by
    cases hr : l.reverse with
    | nil => rfl
    | cons a t =>
      have ha := h.2
      rw [List.getLast?_eq_head?_reverse, hr] at ha
      simp only [List.head?_cons, Bool.not_eq_true'] at ha
      rw [List.dropWhile_cons, ha]
      simp
  rw [trimChars, h1, h2, List.reverse_reverse]

theorem mem_dropWhile_of_not {p : Char → Bool} {c : Char} :
    ∀ {l : List Char}, c ∈ l → p c = false → c ∈ l.dropWhile p := by
  intro l
  induction l with
  | nil => intro h; simp at h
  | cons a t ih =>
    intro hc hp
    rw [List.dropWhile_cons]
    by_cases ha : p a = true
    · rw [if_pos ha]
      rcases List.mem_cons.1 hc with rfl | h1
      · rw [hp] at ha
        exact absurd ha (by decide)
      · exact ih h1 hp
    · rw [if_neg ha]
      exact hc

theorem trimChars_ne_nil {l : List Char} {c : Char} (hc : c ∈ l)
    (hw : jsWS c = false) : trimChars l ≠ [] := by
  intro h
  rw [trimChars] at h
  have h1 : c ∈ l.dropWhile jsWS := mem_dropWhile_of_not hc hw
  have h2 : c ∈ (l.dropWhile jsWS).reverse := List.mem_reverse.2 h1
  have h3 : c ∈ (l.dropWhile jsWS).reverse.dropWhile jsWS :=
    mem_dropWhile_of_not h2 hw
  rw [List.reverse_eq_nil_iff] at h
  rw [h] at h3
  simp at h3

/-! ## Per-field lemmas -/

theorem cleanText_spec {s : String} (h : cleanText s = true) :
    (∀ c ∈ s.data, c ≠ '\\' ∧ c ≠ '\n') ∧ cleanEnds s.data = true := by
  rw [cleanText, Bool.and_eq_true, List.all_eq_true] at h
  refine ⟨fun c hc => ?_, h.2⟩
  have := h.1 c hc
  simp only [Bool.and_eq_true, Bool.not_eq_true', decide_eq_false_iff_not] at this
  exact this

theorem cleanKey_spec {s : String} (h : cleanKey s = true) :
    (∀ c ∈ s.data, c ≠ '\\' ∧ c ≠ '|' ∧ c ≠ '\n') ∧ cleanEnds s.data = true := by
  rw [cleanKey, Bool.and_eq_true, List.all_eq_true] at h
  refine ⟨fun c hc => ?_, h.2⟩
  have := h.1 c hc
  simp only [Bool.and_eq_true, Bool.not_eq_true', decide_eq_false_iff_not] at this
  exact ⟨this.1.1, this.1.2, this.2⟩

theorem stateToString_plain {st : Option ℚ} (h : cleanState st = true) :
    ∀ c ∈ (stateToString st).data, plainChar c = true := by
  cases st with
  | none =>
    intro c hc
    fin_cases hc <;> decide
  | some q =>
    rw [cleanState, beq_iff_eq] at h
    rw [stateToString]
    exact printNum_plain (decimalExp_den_one h)

theorem dateFieldString_plain {d : Option String} (h : cleanDate d = true) :
    ∀ c ∈ (dateFieldString d).data, plainChar c = true := by
  cases d with
  | none =>
    intro c hc
    fin_cases hc <;> decide
  | some s =>
    rw [cleanDate] at h
    rw [dateFieldString, if_neg (isIsoUTC_ne h).1, jsDateToISOString, if_pos h]
    exact (isIsoUTC_plain h).1

theorem dateFieldString_iso {s : String} (h : isIsoUTC s = true) :
    dateFieldString (some s) = s := by
  rw [dateFieldString, if_neg (isIsoUTC_ne h).1, jsDateToISOString, if_pos h]

theorem dateFieldString_ne_nil {d : Option String} (h : cleanDate d = true) :
    (dateFieldString d).data ≠ [] := by
  cases d with
  | none => simp [dateFieldString]
  | some s =>
    rw [cleanDate] at h
    rw [dateFieldString_iso h]
    have := (isIsoUTC_plain h).2
    intro hs
    rw [hs] at this
    exact absurd this (by decide)

theorem ratCast_num {q : ℚ} (h : q.den = 1) : ((q.num : ℚ)) = q := by
  conv_rhs => rw [← Rat.num_div_den q]
  rw [h]
  simp

/-! ## The parts of one serialized card line -/

theorem cardLineChars_eq (id : String) (c : CardJson)
    (hfr : ∀ ch ∈ c.front.data, ch ≠ '\n')
    (hbk : ∀ ch ∈ c.back.data, ch ≠ '\n') :
    cardLineChars id c
      = joinSep '|'
          [id.data, escPipeChars c.front.data, escPipeChars c.back.data,
           (stateToString c.state).data, (printNum c.easeFactor).data,
           (printNum c.interval).data, (printNum c.iteration).data,
           (printNum c.stepIndex).data,
           (dateFieldString c.lastReviewDate).data,
           (dateFieldString c.nextReviewDate).data] := by
  have hf : (escapePipe c.front).data = escPipeChars c.front.data := by
    show escNewlineChars (escPipeChars c.front.data) = _
    refine escNewlineChars_id (fun ch hch => ?_)
    rcases mem_escPipeChars ch hch with h1 | h1
    · exact hfr ch h1
    · rw [h1]; decide
  have hb : (escapePipe c.back).data = escPipeChars c.back.data := by
    show escNewlineChars (escPipeChars c.back.data) = _
    refine escNewlineChars_id (fun ch hch => ?_)
    rcases mem_escPipeChars ch hch with h1 | h1
    · exact hbk ch h1
    · rw [h1]; decide
  rw [cardLineChars, hf, hb]

theorem splitLineParts_cardLine (id : String) (c : CardJson)
    (hk : cleanKey id = true) (hc : cleanCard c = true) :
    splitLineParts (cardLineChars id c)
      = [id, c.front, c.back, stateToString c.state, printNum c.easeFactor,
         printNum c.interval, printNum c.iteration, printNum c.stepIndex,
         dateFieldString c.lastReviewDate, dateFieldString c.nextReviewDate] := by
  rw [cleanCard] at hc
  simp only [Bool.and_eq_true] at hc
  obtain ⟨⟨⟨⟨⟨⟨⟨⟨⟨hfr, hbk⟩, hst⟩, hef⟩, hef0⟩, hiv⟩, hit⟩, hsi⟩, hlr⟩, hnr⟩ := hc
  have hkS := cleanKey_spec hk
  have hfrS := cleanText_spec hfr
  have hbkS := cleanText_spec hbk
  have hp3 := stateToString_plain hst
  obtain ⟨e4, he4⟩ := Option.isSome_iff_exists.1 hef
  obtain ⟨e5, he5⟩ := Option.isSome_iff_exists.1 hiv
  have hp4 := printNum_plain he4
  have hp5 := printNum_plain he5
  have hit' : c.iteration.den = 1 := by rwa [beq_iff_eq] at hit
  have hsi' : c.stepIndex.den = 1 := by rwa [beq_iff_eq] at hsi
  have hp6 := printNum_plain (decimalExp_den_one hit')
  have hp7 := printNum_plain (decimalExp_den_one hsi')
  have hp8 := dateFieldString_plain hlr
  have hp9 := dateFieldString_plain hnr
  rw [splitLineParts,
    cardLineChars_eq id c (fun ch h1 => (hfrS.1 ch h1).2) (fun ch h1 => (hbkS.1 ch h1).2)]
  simp only [joinSep]
  rw [splitPipesAux_line id.data c.front.data c.back.data _ _ _ _ _ _ _
    (fun ch h1 => ⟨(hkS.1 ch h1).1, (hkS.1 ch h1).2.1⟩)
    (fun ch h1 => hfrS.1 ch h1)
    (fun ch h1 => hbkS.1 ch h1)
    (fun ch h1 => ⟨(plainChar_spec (hp3 ch h1)).2.1, (plainChar_spec (hp3 ch h1)).2.2.1⟩)
    (fun ch h1 => ⟨(plainChar_spec (hp4 ch h1)).2.1, (plainChar_spec (hp4 ch h1)).2.2.1⟩)
    (fun ch h1 => ⟨(plainChar_spec (hp5 ch h1)).2.1, (plainChar_spec (hp5 ch h1)).2.2.1⟩)
    (fun ch h1 => ⟨(plainChar_spec (hp6 ch h1)).2.1, (plainChar_spec (hp6 ch h1)).2.2.1⟩)
    (fun ch h1 => ⟨(plainChar_spec (hp7 ch h1)).2.1, (plainChar_spec (hp7 ch h1)).2.2.1⟩)
    (fun ch h1 => ⟨(plainChar_spec (hp8 ch h1)).2.1, (plainChar_spec (hp8 ch h1)).2.2.1⟩)
    (fun ch h1 => ⟨(plainChar_spec (hp9 ch h1)).2.1, (plainChar_spec (hp9 ch h1)).2.2.1⟩)]
  simp only [List.map_cons, List.map_nil]
  rw [trimChars_of_cleanEnds hkS.2, trimChars_of_cleanEnds hfrS.2,
    trimChars_of_cleanEnds hbkS.2,
    trimChars_of_all_not_ws (fun ch h1 => plainChar_not_ws (hp3 ch h1)),
    trimChars_of_all_not_ws (fun ch h1 => plainChar_not_ws (hp4 ch h1)),
    trimChars_of_all_not_ws (fun ch h1 => plainChar_not_ws (hp5 ch h1)),
    trimChars_of_all_not_ws (fun ch h1 => plainChar_not_ws (hp6 ch h1)),
    trimChars_of_all_not_ws (fun ch h1 => plainChar_not_ws (hp7 ch h1)),
    trimChars_of_all_not_ws (fun ch h1 => plainChar_not_ws (hp8 ch h1)),
    trimChars_of_all_not_ws (fun ch h1 => plainChar_not_ws (hp9 ch h1))]

theorem parseCardLine_parts (id : String) (c : CardJson) (hc : cleanCard c = true) :
    parseCardLine
      [id, c.front, c.back, stateToString c.state, printNum c.easeFactor,
       printNum c.interval, printNum c.iteration, printNum c.stepIndex,
       dateFieldString c.lastReviewDate, dateFieldString c.nextReviewDate]
      = some (id, c) := by
  rw [cleanCard] at hc
  simp only [Bool.and_eq_true] at hc
  obtain ⟨⟨⟨⟨⟨⟨⟨⟨⟨hfr, hbk⟩, hst⟩, hef⟩, hef0⟩, hiv⟩, hit⟩, hsi⟩, hlr⟩, hnr⟩ := hc
  have hfrS := cleanText_spec hfr
  have hbkS := cleanText_spec hbk
  have e1 : unescapePipe c.front = c.front :=
    unescapePipe_id (fun ch h1 => (hfrS.1 ch h1).1)
  have e2 : unescapePipe c.back = c.back :=
    unescapePipe_id (fun ch h1 => (hbkS.1 ch h1).1)
  have e3 : (parseIntChars (stateToString c.state).data).map (fun i => (i : ℚ))
      = c.state := by
    cases hs : c.state with
    | none => decide
    | some q =>
      rw [hs] at hst
      have hst2 : (q.den == 1) = true := hst
      have hst' : q.den = 1 := by rwa [beq_iff_eq] at hst2
      rw [stateToString, parseIntChars_printNum hst']
      exact congrArg some (ratCast_num hst')
  have e4 : (match parseFloatChars (printNum c.easeFactor).data with
      | none => (5:ℚ)/2
      | some q => if q = 0 then 5/2 else q) = c.easeFactor := by
    obtain ⟨e, he⟩ := Option.isSome_iff_exists.1 hef
    rw [parseFloatChars_printNum he]
    have h0 : ¬(c.easeFactor = 0) := by
      intro h
      rw [h] at hef0
      exact absurd hef0 (by decide)
    simp [h0]
  have e5 : (parseFloatChars (printNum c.interval).data).getD 0 = c.interval := by
    obtain ⟨e, he⟩ := Option.isSome_iff_exists.1 hiv
    rw [parseFloatChars_printNum he]
    rfl
  have hit' : c.iteration.den = 1 := by rwa [beq_iff_eq] at hit
  have hsi' : c.stepIndex.den = 1 := by rwa [beq_iff_eq] at hsi
  have e6 : (((parseIntChars (printNum c.iteration).data).getD 0 : ℤ) : ℚ)
      = c.iteration := by
    rw [parseIntChars_printNum hit']
    exact ratCast_num hit'
  have e7 : (((parseIntChars (printNum c.stepIndex).data).getD 0 : ℤ) : ℚ)
      = c.stepIndex := by
    rw [parseIntChars_printNum hsi']
    exact ratCast_num hsi'
  have e8 : (if dateFieldString c.lastReviewDate = ""
        ∨ dateFieldString c.lastReviewDate = "null" then none
      else some (dateFieldString c.lastReviewDate)) = c.lastReviewDate := by
    cases hd : c.lastReviewDate with
    | none => decide
    | some s =>
      rw [hd] at hlr
      replace hlr : isIsoUTC s = true := hlr
      rw [dateFieldString_iso hlr, if_neg]
      rintro (h1 | h1)
      · exact (isIsoUTC_ne hlr).1 h1
      · exact (isIsoUTC_ne hlr).2 h1
  have e9 : (if dateFieldString c.nextReviewDate = ""
        ∨ dateFieldString c.nextReviewDate = "null" then none
      else some (dateFieldString c.nextReviewDate)) = c.nextReviewDate := by
    cases hd : c.nextReviewDate with
    | none => decide
    | some s =>
      rw [hd] at hnr
      replace hnr : isIsoUTC s = true := hnr
      rw [dateFieldString_iso hnr, if_neg]
      rintro (h1 | h1)
      · exact (isIsoUTC_ne hnr).1 h1
      · exact (isIsoUTC_ne hnr).2 h1
  rw [parseCardLine]
  rw [e1, e2, e3, e4, e5, e6, e7, e8, e9]

/-! ## List helpers for the whole-file assembly -/

theorem head?_append_left {a b : List Char} (h : a ≠ []) :
    (a ++ b).head? = a.head? := by
  cases a with
  | nil => exact absurd rfl h
  | cons x t => rfl

theorem getLast?_append_right {a b : List Char} (h : b ≠ []) :
    (a ++ b).getLast? = b.getLast? := by
  rw [List.getLast?_eq_head?_reverse, List.getLast?_eq_head?_reverse,
    List.reverse_append]
  exact head?_append_left (by simpa using h)

theorem getLast?_cons_of_ne {c : Char} {t : List Char} (h : t ≠ []) :
    (c :: t).getLast? = t.getLast? := by
  show ([c] ++ t).getLast? = t.getLast?
  exact getLast?_append_right h

theorem cleanEnds_head {l : List Char} (h : cleanEnds l = true) :
    ∀ c, l.head? = some c → jsWS c = false := by
  rw [cleanEnds, Bool.and_eq_true] at h
  intro c hc
  have h1 := h.1
  rw [hc] at h1
  simpa using h1

theorem mem_joinSep {sep c : Char} :
    ∀ {ls : List (List Char)}, c ∈ joinSep sep ls → c = sep ∨ ∃ l ∈ ls, c ∈ l := by
  intro ls
  induction ls with
  | nil => intro hc; simp [joinSep] at hc
  | cons l ms ih =>
    intro hc
    cases ms with
    | nil =>
      exact Or.inr ⟨l, by simp, hc⟩
    | cons m ms' =>
      rcases List.mem_append.1 hc with h1 | h1
      · exact Or.inr ⟨l, by simp, h1⟩
      · rcases List.mem_cons.1 h1 with h2 | h2
        · exact Or.inl h2
        · rcases ih h2 with h3 | ⟨x, hx1, hx2⟩
          · exact Or.inl h3
          · exact Or.inr ⟨x, by simp [hx1], hx2⟩

theorem splitOnChar_ne_nil (sep : Char) : ∀ l, splitOnChar sep l ≠ [] := by
  intro l
  cases l with
  | nil => simp [splitOnChar]
  | cons c cs =>
    rw [splitOnChar]
    rcases hr : splitOnChar sep cs with _ | ⟨h0, t0⟩
    · by_cases hc : c = sep <;> simp [hc]
    · by_cases hc : c = sep <;> simp [hc]

theorem splitOnChar_no_sep {sep : Char} :
    ∀ {xs : List Char}, sep ∉ xs → splitOnChar sep xs = [xs] := by
  intro xs
  induction xs with
  | nil => intro hs; rfl
  | cons c cs ih =>
    intro hs
    have hc : ¬(c = sep) := fun h => hs (by simp [h])
    have hcs : sep ∉ cs := fun h => hs (by simp [h])
    rw [splitOnChar, ih hcs]
    simp [hc]

theorem splitOnChar_append {sep : Char} :
    ∀ {xs : List Char}, sep ∉ xs → ∀ rest,
      splitOnChar sep (xs ++ sep :: rest) = xs :: splitOnChar sep rest := by
  intro xs
  induction xs with
  | nil =>
    intro hs rest
    rw [List.nil_append, splitOnChar]
    rcases hr : splitOnChar sep rest with _ | ⟨h0, t0⟩
    · exact absurd hr (splitOnChar_ne_nil sep rest)
    · simp
  | cons c cs ih =>
    intro hs rest
    have hc : ¬(c = sep) := fun h => hs (by simp [h])
    have hcs : sep ∉ cs := fun h => hs (by simp [h])
    rw [List.cons_append, splitOnChar, ih hcs rest]
    simp [hc]

theorem splitOnChar_joinSep {sep : Char} :
    ∀ {ls : List (List Char)}, ls ≠ [] → (∀ l ∈ ls, sep ∉ l) →
      splitOnChar sep (joinSep sep ls) = ls := by
  intro ls
  induction ls with
  | nil => intro h; exact absurd rfl h
  | cons l ms ih =>
    intro _ hall
    cases ms with
    | nil => exact splitOnChar_no_sep (hall l (by simp))
    | cons m ms' =>
      show splitOnChar sep (l ++ sep :: joinSep sep (m :: ms')) = _
      rw [splitOnChar_append (hall l (by simp)),
        ih (by simp) (fun x hx => hall x (by simp [hx]))]

theorem filterMap_map_eq_self {α γ : Type} (f : γ → Option α) (g : α → γ) :
    ∀ (l : List α), (∀ a ∈ l, f (g a) = some a) → (l.map g).filterMap f = l := by
  intro l
  induction l with
  | nil => intro _; rfl
  | cons a t ih =>
    intro h
    rw [List.map_cons, List.filterMap_cons, h a (by simp),
      ih (fun x hx => h x (by simp [hx]))]

theorem mem_of_getLast? {l : List Char} {a : Char} (h : l.getLast? = some a) :
    a ∈ l := by
  rw [List.getLast?_eq_head?_reverse] at h
  refine List.mem_reverse.1 ?_
  cases hl : l.reverse with
  | nil => rw [hl] at h; exact absurd h (by simp)
  | cons x t =>
    rw [hl] at h
    injection h with h2
    rw [← h2]
    exact List.mem_cons_self _ _

/-- Shape facts about one serialized line needed by the whole-file
round trip: nonempty, whitespace-free ends, newline-free, and a nonempty
trim (so the blank-line filter keeps it). -/
theorem cardLineChars_line_facts (id : String) (c : CardJson)
    (hk : cleanKey id = true) (hc : cleanCard c = true) :
    cardLineChars id c ≠ [] ∧
    (∀ ch, (cardLineChars id c).head? = some ch → jsWS ch = false) ∧
    (∀ ch, (cardLineChars id c).getLast? = some ch → jsWS ch = false) ∧
    ('\n' ∉ cardLineChars id c) ∧
    trimChars (cardLineChars id c) ≠ [] := by
  have hcc := hc
  rw [cleanCard] at hcc
  simp only [Bool.and_eq_true] at hcc
  obtain ⟨⟨⟨⟨⟨⟨⟨⟨⟨hfr, hbk⟩, hst⟩, hef⟩, hef0⟩, hiv⟩, hit⟩, hsi⟩, hlr⟩, hnr⟩ := hcc
  have hkS := cleanKey_spec hk
  have hfrS := cleanText_spec hfr
  have hbkS := cleanText_spec hbk
  have hp3 := stateToString_plain hst
  obtain ⟨e4, he4⟩ := Option.isSome_iff_exists.1 hef
  obtain ⟨e5, he5⟩ := Option.isSome_iff_exists.1 hiv
  have hp4 := printNum_plain he4
  have hp5 := printNum_plain he5
  have hit' : c.iteration.den = 1 := by rwa [beq_iff_eq] at hit
  have hsi' : c.stepIndex.den = 1 := by rwa [beq_iff_eq] at hsi
  have hp6 := printNum_plain (decimalExp_den_one hit')
  have hp7 := printNum_plain (decimalExp_den_one hsi')
  have hp8 := dateFieldString_plain hlr
  have hp9 := dateFieldString_plain hnr
  have hEq := cardLineChars_eq id c (fun ch h1 => (hfrS.1 ch h1).2)
    (fun ch h1 => (hbkS.1 ch h1).2)
  rw [hEq]
  simp only [joinSep]
  refine ⟨?_, ?_, ?_, ?_, ?_⟩
  · simp [List.append_eq_nil]
  · intro ch hch
    cases hid0 : id.data with
    | nil =>
      rw [hid0, List.nil_append, List.head?_cons] at hch
      injection hch with h2
      rw [← h2]
      decide
    | cons a t =>
      rw [hid0, head?_append_left (by simp), List.head?_cons] at hch
      have := cleanEnds_head hkS.2
      rw [hid0] at this
      exact this ch (by rw [List.head?_cons, hch])
  · intro ch hch
    rw [getLast?_append_right (by simp),
      getLast?_cons_of_ne (by simp [List.append_eq_nil]),
      getLast?_append_right (by simp),
      getLast?_cons_of_ne (by simp [List.append_eq_nil]),
      getLast?_append_right (by simp),
      getLast?_cons_of_ne (by simp [List.append_eq_nil]),
      getLast?_append_right (by simp),
      getLast?_cons_of_ne (by simp [List.append_eq_nil]),
      getLast?_append_right (by simp),
      getLast?_cons_of_ne (by simp [List.append_eq_nil]),
      getLast?_append_right (by simp),
      getLast?_cons_of_ne (by simp [List.append_eq_nil]),
      getLast?_append_right (by simp),
      getLast?_cons_of_ne (by simp [List.append_eq_nil]),
      getLast?_append_right (by simp),
      getLast?_cons_of_ne (by simp [List.append_eq_nil]),
      getLast?_append_right (by simp),
      getLast?_cons_of_ne (dateFieldString_ne_nil hnr)] at hch
    exact plainChar_not_ws (hp9 ch (mem_of_getLast? hch))
  · intro hmem
    have hj : '\n' ∈ joinSep '|'
        [id.data, escPipeChars c.front.data, escPipeChars c.back.data,
         (stateToString c.state).data, (printNum c.easeFactor).data,
         (printNum c.interval).data, (printNum c.iteration).data,
         (printNum c.stepIndex).data,
         (dateFieldString c.lastReviewDate).data,
         (dateFieldString c.nextReviewDate).data] := by
      simpa [joinSep] using hmem
    rcases mem_joinSep hj with h1 | ⟨l, hl1, hl2⟩
    · exact absurd h1 (by decide)
    · simp only [List.mem_cons, List.not_mem_nil, or_false] at hl1
      rcases hl1 with rfl|rfl|rfl|rfl|rfl|rfl|rfl|rfl|rfl|rfl
      · exact (hkS.1 _ hl2).2.2 rfl
      · rcases mem_escPipeChars _ hl2 with h2 | h2
        · exact (hfrS.1 _ h2).2 rfl
        · exact absurd h2 (by decide)
      · rcases mem_escPipeChars _ hl2 with h2 | h2
        · exact (hbkS.1 _ h2).2 rfl
        · exact absurd h2 (by decide)
      · exact (plainChar_spec (hp3 _ hl2)).2.2.2 rfl
      · exact (plainChar_spec (hp4 _ hl2)).2.2.2 rfl
      · exact (plainChar_spec (hp5 _ hl2)).2.2.2 rfl
      · exact (plainChar_spec (hp6 _ hl2)).2.2.2 rfl
      · exact (plainChar_spec (hp7 _ hl2)).2.2.2 rfl
      · exact (plainChar_spec (hp8 _ hl2)).2.2.2 rfl
      · exact (plainChar_spec (hp9 _ hl2)).2.2.2 rfl
  · refine trimChars_ne_nil (c := '|') ?_ (by decide)
    exact List.mem_append.2 (Or.inr (List.mem_cons_self _ _))

theorem trimChars_wrap {xs : List Char} (hne : xs ≠ [])
    (hhead : ∀ c, xs.head? = some c → jsWS c = false)
    (hlast : ∀ c, xs.getLast? = some c → jsWS c = false) :
    trimChars (xs ++ ['\n']) = xs := by
  obtain ⟨a, t, rfl⟩ := List.exists_cons_of_ne_nil hne
  have ha : jsWS a = false := hhead a rfl
  rw [trimChars]
  have hdrop : List.dropWhile jsWS ((a :: t) ++ ['\n']) = (a :: t) ++ ['\n'] := by
    rw [List.cons_append, List.dropWhile_cons, ha]
    simp
  rw [hdrop]
  have hrev : ((a :: t) ++ ['\n']).reverse = '\n' :: (t.reverse ++ [a]) := by
    simp
  rw [hrev, List.dropWhile_cons]
  simp only [show jsWS '\n' = true from rfl, if_true]
  have h2 : List.dropWhile jsWS (t.reverse ++ [a]) = t.reverse ++ [a] := by
    cases ht : t.reverse with
    | nil =>
      simp [List.dropWhile_cons, ha]
    | cons b u =>
      have htne : t ≠ [] := by
        intro h0
        rw [h0] at ht
        exact absurd ht (by simp)
      have hb : jsWS b = false := by
        refine hlast b ?_
        rw [getLast?_cons_of_ne htne, List.getLast?_eq_head?_reverse, ht]
        rfl
      rw [List.cons_append, List.dropWhile_cons, hb]
      simp
  rw [h2]
  simp

theorem mem_of_getLast?_gen {α : Type} :
    ∀ {l : List α} {a : α}, l.getLast? = some a → a ∈ l := by
  intro l
  induction l with
  | nil => intro a h; simp at h
  | cons x t ih =>
    intro a h
    cases t with
    | nil =>
      simp only [List.getLast?_singleton, Option.some.injEq] at h
      simp [h]
    | cons y u =>
      rw [List.getLast?_cons_cons] at h
      exact List.mem_cons_of_mem _ (ih h)

theorem joinSep_ne_nil {sep : Char} {l : List Char} {ls : List (List Char)}
    (h : l ≠ []) : joinSep sep (l :: ls) ≠ [] := by
  cases ls with
  | nil => exact h
  | cons m ms => simp [joinSep, List.append_eq_nil]

theorem joinSep_head?_eq {sep : Char} (l : List Char) (ls : List (List Char))
    (h : l ≠ []) : (joinSep sep (l :: ls)).head? = l.head? := by
  cases ls with
  | nil => rfl
  | cons m ms => exact head?_append_left h

theorem joinSep_getLast?_eq {sep : Char} :
    ∀ (ls : List (List Char)) (l : List Char), (∀ x ∈ ls, x ≠ []) →
      (joinSep sep (l :: ls)).getLast? = (ls.getLast?.getD l).getLast? := by
  intro ls
  induction ls with
  | nil => intro l _; rfl
  | cons m ms ih =>
    intro l h
    show (l ++ sep :: joinSep sep (m :: ms)).getLast? = _
    rw [getLast?_append_right (by simp),
      getLast?_cons_of_ne (joinSep_ne_nil (h m (by simp))),
      ih m (fun x hx => h x (by simp [hx]))]
    cases ms with
    | nil => rfl
    | cons k ks =>
      have hke : (k :: ks).getLast?.isSome := by
        rw [List.getLast?_isSome]
        simp
      obtain ⟨x, hx⟩ := Option.isSome_iff_exists.1 hke
      rw [List.getLast?_cons_cons, hx]
      rfl

/-- **Round trip of the deck-file card section.**  Writing a deck with
`stringifyDeckFile` and reading it back with `parseDeckFile` recovers
exactly the same cards, for every deck whose cards are storage-clean
(`cleanKey` / `cleanCard`). -/
theorem parseDeckCards_stringifyDeckCards (cards : List (String × CardJson))
    (hclean : ∀ p ∈ cards, cleanKey p.1 = true ∧ cleanCard p.2 = true) :
    parseDeckCards (stringifyDeckCards cards) = cards := by
  cases cards with
  | nil => decide
  | cons p0 rest =>
    have hfacts : ∀ p ∈ p0 :: rest,
        cardLineChars p.1 p.2 ≠ [] ∧
        (∀ ch, (cardLineChars p.1 p.2).head? = some ch → jsWS ch = false) ∧
        (∀ ch, (cardLineChars p.1 p.2).getLast? = some ch → jsWS ch = false) ∧
        ('\n' ∉ cardLineChars p.1 p.2) ∧
        trimChars (cardLineChars p.1 p.2) ≠ [] :=
      fun p hp => cardLineChars_line_facts p.1 p.2 (hclean p hp).1 (hclean p hp).2
    have hlines : ∀ L ∈ (p0 :: rest).map (fun p => cardLineChars p.1 p.2),
        L ≠ [] ∧ (∀ ch, L.head? = some ch → jsWS ch = false) ∧
        (∀ ch, L.getLast? = some ch → jsWS ch = false) ∧
        ('\n' ∉ L) ∧ trimChars L ≠ [] := by
      intro L hL
      obtain ⟨p, hp, rfl⟩ := List.mem_map.1 hL
      exact hfacts p hp
    have hL0 := hlines (cardLineChars p0.1 p0.2) (by rw [List.map_cons]; exact List.mem_cons_self _ _)
    have hJne : joinSep '\n' ((p0 :: rest).map (fun p => cardLineChars p.1 p.2)) ≠ [] := by
      rw [List.map_cons]
      exact joinSep_ne_nil hL0.1
    have hJhead : ∀ c,
        (joinSep '\n' ((p0 :: rest).map (fun p => cardLineChars p.1 p.2))).head?
          = some c → jsWS c = false := by
      intro c hc
      rw [List.map_cons, joinSep_head?_eq _ _ hL0.1] at hc
      exact hL0.2.1 c hc
    have hJlast : ∀ c,
        (joinSep '\n' ((p0 :: rest).map (fun p => cardLineChars p.1 p.2))).getLast?
          = some c → jsWS c = false := by
      intro c hc
      rw [List.map_cons, joinSep_getLast?_eq _ _
        (fun x hx => (hlines x (by simp [hx])).1)] at hc
      have hmem :
          ((rest.map (fun p => cardLineChars p.1 p.2)).getLast?.getD
            (cardLineChars p0.1 p0.2))
            ∈ (p0 :: rest).map (fun p => cardLineChars p.1 p.2) := by
        cases hg : (rest.map (fun p => cardLineChars p.1 p.2)).getLast? with
        | none => simp
        | some x =>
          simp only [Option.getD_some]
          rw [List.map_cons]
          exact List.mem_cons_of_mem _ (mem_of_getLast?_gen hg)
      exact (hlines _ hmem).2.2.1 c hc
    have hdata : (stringifyDeckCards (p0 :: rest)).data
        = joinSep '\n' ((p0 :: rest).map (fun p => cardLineChars p.1 p.2)) ++ ['\n'] :=
      rfl
    have h1 : trimChars (stringifyDeckCards (p0 :: rest)).data
        = joinSep '\n' ((p0 :: rest).map (fun p => cardLineChars p.1 p.2)) := by
      rw [hdata]
      exact trimChars_wrap hJne hJhead hJlast
    have h2 : (joinSep '\n'
        ((p0 :: rest).map (fun p => cardLineChars p.1 p.2))).isEmpty = false := by
      rcases hj : (joinSep '\n' ((p0 :: rest).map (fun p => cardLineChars p.1 p.2))).isEmpty
        with _ | _
      · exact hj
      · exact absurd (List.isEmpty_iff.1 hj) hJne
    have h3 : splitOnChar '\n'
        (joinSep '\n' ((p0 :: rest).map (fun p => cardLineChars p.1 p.2)))
        = (p0 :: rest).map (fun p => cardLineChars p.1 p.2) :=
      splitOnChar_joinSep (by simp) (fun l hl => (hlines l hl).2.2.2.1)
    have h4 : ((p0 :: rest).map (fun p => cardLineChars p.1 p.2)).filter
        (fun l => !(trimChars l).isEmpty)
        = (p0 :: rest).map (fun p => cardLineChars p.1 p.2) := by
      rw [List.filter_eq_self]
      intro l hl
      rcases hj : (trimChars l).isEmpty with _ | _
      · rfl
      · exact absurd (List.isEmpty_iff.1 hj) (hlines l hl).2.2.2.2
    have h5 : (((p0 :: rest).map (fun p => cardLineChars p.1 p.2)).filterMap
        (fun l => parseCardLine (splitLineParts l))) = p0 :: rest := by
      refine filterMap_map_eq_self _ _ _ (fun p hp => ?_)
      rw [splitLineParts_cardLine p.1 p.2 (hclean p hp).1 (hclean p hp).2,
        parseCardLine_parts p.1 p.2 (hclean p hp).2]
    rw [parseDeckCards, h1, h2]
    simp only [Bool.false_eq_true, if_false]
    rw [h3, h4, h5]

/-! ## The scheduling engine

Modelled from the spec: the engine (`src/spaced-repetition`: the card
state machine, `review`, `isDue`, parameter validation) is not among the
provided sources — only its callers and the storage layer are.  The
definitions below follow §3, §4 and §6 of the spec literally.
Timestamps are exact rationals in milliseconds; learning steps are
minutes, intervals are days. -/

inductive CardState where
  | NEW
  | LEARNING
  | REVIEW
  | RELEARNING
deriving DecidableEq

inductive Rating where
  | AGAIN
  | HARD
  | GOOD
  | EASY
deriving DecidableEq

/-- Modelled from the spec: the §3 Card scheduling state (identity and
content omitted; the engine never reads them). -/
structure SpacedCard where
  state : CardState
  stepIndex : Nat
  easeFactor : ℚ
  interval : ℚ
  iteration : Nat
  lastReviewDate : Option ℚ
  nextReviewDate : Option ℚ
deriving DecidableEq

/-- Modelled from the spec: the §3 Anki parameter table. -/
structure AnkiParameters where
  learningSteps : List ℚ
  relearningSteps : List ℚ
  graduatingInterval : ℚ
  easyInterval : ℚ
  easyBonus : ℚ
  hardIntervalMultiplier : ℚ
  lapseInterval : ℚ
  minEaseFactor : ℚ
  easeFactorIncrement : ℚ
  easeFactorDecrement : ℚ
deriving DecidableEq

/-- The default starting ease factor (§3: "starts at a fixed default
(e.g. 2.5)"). -/
def DEFAULT_EASE : ℚ := 5/2

/-- Modelled from the spec: §4.2 parameter validation.  Violations: any
numeric field ≤ 0 where a positive value is required, `minEaseFactor` ≥
the default starting ease factor, empty step sequences,
`easyInterval < graduatingInterval`. -/
def validateParams (p : AnkiParameters) : Bool :=
  !p.learningSteps.isEmpty && p.learningSteps.all (fun s => decide (0 < s)) &&
  !p.relearningSteps.isEmpty && p.relearningSteps.all (fun s => decide (0 < s)) &&
  decide (0 < p.graduatingInterval) && decide (0 < p.easyInterval) &&
  decide (0 < p.easyBonus) && decide (0 < p.hardIntervalMultiplier) &&
  decide (0 ≤ p.lapseInterval) && decide (0 < p.minEaseFactor) &&
  decide (p.minEaseFactor < DEFAULT_EASE) &&
  decide (0 ≤ p.easeFactorIncrement) && decide (0 ≤ p.easeFactorDecrement) &&
  decide (p.graduatingInterval ≤ p.easyInterval)

inductive ReviewError where
  | InvalidParameters
  | InvalidTimestamp
deriving DecidableEq

/-- Milliseconds per minute / per day. -/
def MINUTE_MS : ℚ := 60000
def DAY_MS : ℚ := 86400000

/-- §4.1: deterministic round-half-up of an interval to whole days. -/
def roundHalfUp (q : ℚ) : ℤ := ⌊q + 1/2⌋

/-- Modelled from the spec: the §4.1 transition table.  Every branch sets
`lastReviewDate := now`, a present `nextReviewDate`, and increments
`iteration`. -/
def transition (card : SpacedCard) (rating : Rating) (now : ℚ)
    (params : AnkiParameters) : SpacedCard :=
  let done := fun (c : SpacedCard) (due : ℚ) =>
    { c with lastReviewDate := some now, nextReviewDate := some due,
             iteration := card.iteration + 1 }
  match card.state, rating with
  | CardState.NEW, Rating.EASY =>
    done { card with state := CardState.REVIEW, interval := params.easyInterval,
                     stepIndex := 0 }
      (now + params.easyInterval * DAY_MS)
  | CardState.NEW, _ =>
    done { card with state := CardState.LEARNING, stepIndex := 0, interval := 0 }
      (now + (params.learningSteps.getD 0 0) * MINUTE_MS)
  | CardState.LEARNING, Rating.AGAIN =>
    done { card with stepIndex := 0 }
      (now + (params.learningSteps.getD 0 0) * MINUTE_MS)
  | CardState.LEARNING, Rating.HARD =>
    done card (now + (params.learningSteps.getD card.stepIndex 0) * MINUTE_MS)
  | CardState.LEARNING, Rating.GOOD =>
    if card.stepIndex + 1 < params.learningSteps.length then
      done { card with stepIndex := card.stepIndex + 1 }
        (now + (params.learningSteps.getD (card.stepIndex + 1) 0) * MINUTE_MS)
    else
      done { card with state := CardState.REVIEW, stepIndex := 0,
                       interval := params.graduatingInterval }
        (now + params.graduatingInterval * DAY_MS)
  | CardState.LEARNING, Rating.EASY =>
    done { card with state := CardState.REVIEW, stepIndex := 0,
                     interval := params.easyInterval }
      (now + params.easyInterval * DAY_MS)
  | CardState.RELEARNING, Rating.AGAIN =>
    done { card with stepIndex := 0 }
      (now + (params.relearningSteps.getD 0 0) * MINUTE_MS)
  | CardState.RELEARNING, Rating.HARD =>
    done card (now + (params.relearningSteps.getD card.stepIndex 0) * MINUTE_MS)
  | CardState.RELEARNING, Rating.GOOD =>
    if card.stepIndex + 1 < params.relearningSteps.length then
      done { card with stepIndex := card.stepIndex + 1 }
        (now + (params.relearningSteps.getD (card.stepIndex + 1) 0) * MINUTE_MS)
    else
      done { card with state := CardState.REVIEW, stepIndex := 0 }
        (now + card.interval * DAY_MS)
  | CardState.RELEARNING, Rating.EASY =>
    done { card with state := CardState.REVIEW, stepIndex := 0 }
      (now + card.interval * DAY_MS)
  | CardState.REVIEW, Rating.AGAIN =>
    let ease := max params.minEaseFactor (card.easeFactor - params.easeFactorDecrement)
    let lapsed : ℚ := max 1 ((roundHalfUp (card.interval * params.lapseInterval) : ℚ))
    done { card with state := CardState.RELEARNING, stepIndex := 0,
                     easeFactor := ease, interval := lapsed }
      (now + (params.relearningSteps.getD 0 0) * MINUTE_MS)
  | CardState.REVIEW, Rating.HARD =>
    let iv : ℚ := max 1 ((roundHalfUp (card.interval * params.hardIntervalMultiplier) : ℚ))
    done { card with interval := iv } (now + iv * DAY_MS)
  | CardState.REVIEW, Rating.GOOD =>
    let iv : ℚ := max 1 ((roundHalfUp (card.interval * card.easeFactor) : ℚ))
    done { card with interval := iv } (now + iv * DAY_MS)
  | CardState.REVIEW, Rating.EASY =>
    let ease := card.easeFactor + params.easeFactorIncrement
    let iv : ℚ := max 1 ((roundHalfUp (card.interval * ease * params.easyBonus) : ℚ))
    done { card with easeFactor := ease, interval := iv } (now + iv * DAY_MS)

/-- Modelled from the spec: `review(card, rating, now, params)` (§6) —
fails with `InvalidParameters` if §4.2 validation fails, with
`InvalidTimestamp` if `now` precedes the card's last review, and
otherwise returns the fully-specified transitioned card. -/
def review (card : SpacedCard) (rating : Rating) (now : ℚ)
    (params : AnkiParameters) : Except ReviewError SpacedCard :=
  if !validateParams params then Except.error ReviewError.InvalidParameters
  else
    match card.lastReviewDate with
    | some lr =>
      if now < lr then Except.error ReviewError.InvalidTimestamp
      else Except.ok (transition card rating now params)
    | none => Except.ok (transition card rating now params)

/-- Modelled from the spec: `isDue(card, now)` (§6) — true if
`state = NEW`, or `now ≥ nextReviewDate`. -/
def isDue (card : SpacedCard) (now : ℚ) : Bool :=
  card.state = CardState.NEW ||
    (match card.nextReviewDate with
     | some d => decide (d ≤ now)
     | none => false)

/-! ## The card-list status display (EditCardsModal.ts lines 123-133) -/

/-- What the "time until next review" column shows for one card. -/
inductive CardStatusDisplay where
  | timeUntil (nextReviewDate : ℚ)
  | dueNow
  | noReviewDate
deriving DecidableEq

/-- The decision of `EditCardsModal.render` when `showTimeUntilReview` is
on: a present `nextReviewDate` shows the formatted time difference
(`formatTimeDifference`, rendering not modelled), otherwise a NEW card
shows `'Due now'` and any other card `'No review date'`. -/
def reviewStatusDisplay (card : SpacedCard) : CardStatusDisplay :=
  match card.nextReviewDate with
  | some d => CardStatusDisplay.timeUntil d
  | none =>
    if card.state = CardState.NEW then CardStatusDisplay.dueNow
    else CardStatusDisplay.noReviewDate

/-! ## DecksManager (the unnamed decks-manager source file)

The in-memory state is the `decks` record (JS object keyed by deck id),
modelled as an association list in insertion order.  File I/O
(`saveDeckToFile`, the vault adapter) is outside the model; the claims
below concern only the in-memory map, which the source mutates strictly
after its guard checks. -/

/-- A card as the deck manager stores it (`SpacedRepetitionItem`): only
the id and an opaque content payload matter to the manager. -/
structure SRItem where
  id : String
  content : String
deriving DecidableEq

structure Deck where
  id : String
  name : String
  description : String
  cards : List (String × SRItem)
deriving DecidableEq

/-- JS object assignment `m[k] = v`: overwrite in place if the key
exists, else append. -/
def recSet {α : Type} (m : List (String × α)) (k : String) (v : α) :
    List (String × α) :=
  if m.any (fun p => p.1 == k) then m.map (fun p => if p.1 == k then (k, v) else p)
  else m ++ [(k, v)]

/-- JS `k in m`. -/
def recHas {α : Type} (m : List (String × α)) (k : String) : Bool :=
  m.any (fun p => p.1 == k)

/-- JS `delete m[k]`. -/
def recDelete {α : Type} (m : List (String × α)) (k : String) :
    List (String × α) :=
  m.filter (fun p => !(p.1 == k))

/-- JS `m[k]` lookup. -/
def recGet {α : Type} (m : List (String × α)) (k : String) : Option α :=
  (m.find? (fun p => p.1 == k)).map Prod.snd

structure DecksState where
  decks : List (String × Deck)
deriving DecidableEq

namespace DecksManager

/-- The forbidden-filename character class `[<>:"/\\|?*\x00-\x1F]`. -/
def isInvalidFileNameChar (c : Char) : Bool :=
  c = '<' || c = '>' || c = ':' || c = '"' || c = '/' || c = '\\' ||
  c = '|' || c = '?' || c = '*' || decide (c.toNat ≤ 31)

/-- `DecksManager.isValidFileName` (lines 312-333): nonempty, at most 255
characters, no forbidden character, and not ending with a period. -/
def isValidFileName (fileName : String) : Bool :=
  if fileName = "" then false
  else if fileName.length > 255 then false
  else if fileName.data.any isInvalidFileNameChar then false
  else if fileName.data.getLast? = some '.' then false
  else true

/-- `DecksManager.create` (lines 61-79).  The fresh deck id comes from the
`Deck` constructor (external id generation), passed here as `newId`; the
deck file write is I/O outside the model.  The name is trimmed first; an
invalid or duplicate name throws without touching the decks map. -/
def create (st : DecksState) (newId deckName description : String) :
    DecksState × Except String Deck :=
  let name := jsTrim deckName
  if !isValidFileName name then
    (st, Except.error ("Invalid deck name: " ++ name))
  else if st.decks.any (fun p => p.2.name == name) then
    (st, Except.error ("Deck name already exists: " ++ name))
  else
    let deck : Deck := ⟨newId, name, description, []⟩
    (⟨recSet st.decks newId deck⟩, Except.ok deck)

/-- `DecksManager.updateInformation` (lines 81-99): trims and validates
the new name first, then requires the deck to exist, then updates name
and description. -/
def updateInformation (st : DecksState) (id newName newDescription : String) :
    DecksState × Except String Deck :=
  let name := jsTrim newName
  if !isValidFileName name then
    (st, Except.error ("Invalid deck name: " ++ name))
  else
    match recGet st.decks id with
    | none => (st, Except.error ("Deck with id does not exist: " ++ id))
    | some d =>
      let d' : Deck := { d with name := name, description := newDescription }
      (⟨recSet st.decks id d'⟩, Except.ok d')

/-- `DecksManager.addCard` (lines 101-110). -/
def addCard (st : DecksState) (deckId : String) (card : SRItem) :
    DecksState × Option String :=
  match recGet st.decks deckId with
  | none => (st, some ("No deck with id found: " ++ deckId))
  | some d =>
    (⟨recSet st.decks deckId { d with cards := recSet d.cards card.id card }⟩, none)

/-- `DecksManager.updateCardContent` (lines 112-126). -/
def updateCardContent (st : DecksState) (deckId : String) (updatedCard : SRItem) :
    DecksState × Option String :=
  match recGet st.decks deckId with
  | none => (st, some ("No deck with id found: " ++ deckId))
  | some d =>
    if !recHas d.cards updatedCard.id then
      (st, some ("No card in deck with card id found: " ++ updatedCard.id))
    else
      (⟨recSet st.decks deckId
          { d with cards := recSet d.cards updatedCard.id updatedCard }⟩, none)

/-- `DecksManager.removeCard` (lines 128-139). -/
def removeCard (st : DecksState) (deckId cardId : String) :
    DecksState × Option String :=
  match recGet st.decks deckId with
  | none => (st, some ("No deck with id found: " ++ deckId))
  | some d =>
    if !recHas d.cards cardId then
      (st, some ("No card in deck with card id found: " ++ cardId))
    else
      (⟨recSet st.decks deckId { d with cards := recDelete d.cards cardId }⟩, none)

end DecksManager

/-! ## SettingsTab (src/ui/settings/SettingsTab.ts) -/

/-- Models JS `Number(x)` / unary `+x` (whole-string conversion): trims,
maps the empty string to `0`, accepts an optionally signed decimal with
an optional fraction part, and is `NaN` (`none`) otherwise.  Exponent
and hex notation are not modelled; no theorem depends on such inputs. -/
def jsNumberChars (l : List Char) : Option ℚ :=
  let t := trimChars l
  if t.isEmpty then some 0
  else
    let s := parseSignChars t
    let p := takeDigits s.2
    match p.2 with
    | [] =>
      if p.1 = [] then none
      else some ((if s.1 then -1 else 1) * (digitsToNat p.1 : ℚ))
    | c :: r =>
      if c = '.' then
        let q := takeDigits r
        if q.2 = [] ∧ ¬(p.1 = [] ∧ q.1 = []) then
          some ((if s.1 then -1 else 1) *
            ((digitsToNat p.1 : ℚ) + (digitsToNat q.1 : ℚ) / 10 ^ q.1.length))
        else none
      else none

/-- `SettingsTab.isStringValidArray` (lines 204-209): every
comma-separated part converts to a number (`!isNaN(+text)`).  Note an
empty part converts to `0`, so `""` and `"1,,2"` count as valid. -/
def isStringValidArray (s : String) : Bool :=
  (splitOnChar ',' (trimChars s.data)).all (fun part => (jsNumberChars part).isSome)

/-- `SettingsTab.parseStringToArray` (lines 197-202): map `Number` over
the comma-separated parts.  (A `NaN` part is modelled as `0`; the
settings handler only calls this behind `isStringValidArray`.) -/
def parseStringToArray (s : String) : List ℚ :=
  (splitOnChar ',' (trimChars s.data)).map (fun part => (jsNumberChars part).getD 0)

/-- The `text.onChange` handler of `SettingsTab.display` (lines 162-183)
for a scalar Anki parameter: trim the input, ignore it if `isNaN(+input)`,
otherwise store `Number(input)` as the new parameter value — with no
range validation whatsoever. -/
def numericSettingOnChange (input : String) (current : ℚ) : ℚ :=
  match jsNumberChars (trimChars input.data) with
  | none => current
  | some q => q

/-- The same handler for `learningSteps` / `relearningSteps`: ignore the
edit unless `isStringValidArray`, otherwise store `parseStringToArray` —
again with no emptiness or positivity validation. -/
def stepsSettingOnChange (input : String) (current : List ℚ) : List ℚ :=
  if !isStringValidArray (jsTrim input) then current
  else parseStringToArray (jsTrim input)

/-! ## translateText (src/util/translation.ts) -/

/-- The first observable action of `translateText`: either the empty-text
rejection thrown before any network call, or the hand-off to the
translation services (`tryTranslateWithVariations` and the LibreTranslate
fallback — network behavior outside the model). -/
inductive TranslateStart where
  | reject (msg : String)
  | request (text sourceLanguage targetLanguage : String)
deriving DecidableEq

/-- The entry guard of `translateText` (lines 51-66): an empty or
whitespace-only text throws `'Text to translate cannot be empty'` before
any translation service is contacted. -/
def translateTextEntry (text sourceLanguage targetLanguage : String) :
    TranslateStart :=
  if text = "" || (jsTrim text).length == 0 then
    TranslateStart.reject "Text to translate cannot be empty"
  else TranslateStart.request text sourceLanguage targetLanguage

/-! # Claims -/

/-- C1 (counterexample): a deck-file line whose easeFactor, interval,
iteration and stepIndex fields are all malformed loads WITHOUT any error,
with the hardcoded fallbacks 2.5 / 0 / 0 / 0 silently substituted —
loading does not fail as the claim states. -/
theorem C1_counterexample :
    parseDeckCards "id1|front|back|0|abc|xyz|pq|rs|null|null"
      = [("id1",
          { type := CardType.BASIC, front := "front", back := "back",
            state := some 0, easeFactor := 5/2, interval := 0, iteration := 0,
            stepIndex := 0, lastReviewDate := none, nextReviewDate := none })] := by
  decide

/-- C1 (amended): malformed numeric fields during deck-file
deserialization are silently replaced by hardcoded fallbacks — easeFactor
by 2.5, interval, iteration and stepIndex by 0 — and the line still loads
as a card; parsing never fails on them. -/
theorem C1_silent_defaults (id front back stateStr efStr ivStr itStr siStr
    lrStr nrStr : String) (rest : List String)
    (hef : parseFloatChars efStr.data = none)
    (hiv : parseFloatChars ivStr.data = none)
    (hit : parseIntChars itStr.data = none)
    (hsi : parseIntChars siStr.data = none) :
    ∃ c, parseCardLine (id :: front :: back :: stateStr :: efStr :: ivStr ::
        itStr :: siStr :: lrStr :: nrStr :: rest) = some (id, c) ∧
      c.easeFactor = 5/2 ∧ c.interval = 0 ∧ c.iteration = 0 ∧ c.stepIndex = 0 := by
  rw [parseCardLine]
  refine ⟨_, rfl, ?_, ?_, ?_, ?_⟩
  · simp only [hef]
  · simp only [hiv]
    rfl
  · simp only [hit]
    rfl
  · simp only [hsi]
    rfl

theorem C1_silent_defaults_witness :
    ∃ c, parseCardLine ["id1", "front", "back", "0", "abc", "xyz", "pq", "rs",
        "null", "null"] = some ("id1", c) ∧
      c.easeFactor = 5/2 ∧ c.interval = 0 ∧ c.iteration = 0 ∧ c.stepIndex = 0 :=
  C1_silent_defaults "id1" "front" "back" "0" "abc" "xyz" "pq" "rs" "null" "null"
    [] (by decide) (by decide) (by decide) (by decide)

/-- C2 (counterexample): the storage layer does NOT preserve card text
containing a newline — the escaper writes it as a literal backslash-n,
which the reader's escape-aware splitter collapses to the letter `n`:
front `"a\nb"` comes back as `"anb"`. -/
theorem C2_counterexample :
    parseDeckCards (stringifyDeckCards
      [("k", { type := CardType.BASIC, front := "a\nb", back := "x",
               state := some 0, easeFactor := 5/2, interval := 0, iteration := 0,
               stepIndex := 0, lastReviewDate := none, nextReviewDate := none })])
      ≠ [("k", { type := CardType.BASIC, front := "a\nb", back := "x",
                 state := some 0, easeFactor := 5/2, interval := 0, iteration := 0,
                 stepIndex := 0, lastReviewDate := none, nextReviewDate := none })] := by
  decide

/-- C2 (amended): the deck-file storage layer preserves the exact card
fields for every storage-clean deck: front/back may contain pipes (they
are escaped) but no backslash, no newline and no leading/trailing
whitespace; ids additionally contain no pipe; state, iteration and
stepIndex are integer-valued (state may also be NaN); easeFactor is a
nonzero finite decimal and interval a finite decimal; dates are absent or
ISO-8601 UTC strings.  Parsing the string produced by `stringifyDeckFile`
then yields back exactly the same cards (absent dates round-trip to
absent). -/
theorem C2_roundtrip_clean (cards : List (String × CardJson))
    (hclean : ∀ p ∈ cards, cleanKey p.1 = true ∧ cleanCard p.2 = true) :
    parseDeckCards (stringifyDeckCards cards) = cards :=
  parseDeckCards_stringifyDeckCards cards hclean

theorem C2_roundtrip_clean_witness :
    parseDeckCards (stringifyDeckCards
      [("id1", { type := CardType.BASIC, front := "he|ar", back := "oir",
                 state := some 2, easeFactor := 5/2, interval := 3/2,
                 iteration := 4, stepIndex := 0,
                 lastReviewDate := some "2024-01-01T00:00:00.000Z",
                 nextReviewDate := some "2024-01-02T12:30:05.250Z" })])
      = [("id1", { type := CardType.BASIC, front := "he|ar", back := "oir",
                   state := some 2, easeFactor := 5/2, interval := 3/2,
                   iteration := 4, stepIndex := 0,
                   lastReviewDate := some "2024-01-01T00:00:00.000Z",
                   nextReviewDate := some "2024-01-02T12:30:05.250Z" })] :=
  C2_roundtrip_clean _ (by decide)

/-- C3 (counterexample): `parseDeckFile` enforces no invariant — a line
with state 0 (NEW), iteration 5 and a present lastReviewDate loads as a
card violating `state = NEW ⇔ iteration = 0 ⇔ lastReviewDate absent`. -/
theorem C3_counterexample :
    (parseDeckCards
        "id1|f|b|0|2.5|0|5|0|2024-01-01T00:00:00.000Z|null").map
      (fun p => (p.2.state, p.2.iteration, p.2.lastReviewDate))
      = [(some 0, 5, some "2024-01-01T00:00:00.000Z")] := by
  decide

/-- C3 (amended): deserialization performs no validation, so the
`state = NEW ⇔ iteration = 0 ⇔ lastReviewDate absent` invariant holds for
loaded cards exactly when the stored fields already satisfy it; in
particular it is preserved through a `stringifyDeckFile` /
`parseDeckFile` round trip of storage-clean cards (state 0 encodes NEW,
as in the repository's `CardState` enum). -/
theorem C3_invariant_roundtrip (cards : List (String × CardJson))
    (hclean : ∀ p ∈ cards, cleanKey p.1 = true ∧ cleanCard p.2 = true)
    (hinv : cards.all (fun p =>
      (decide (p.2.state = some 0) == decide (p.2.iteration = 0)) &&
      (decide (p.2.state = some 0) == decide (p.2.lastReviewDate = none))) = true) :
    (parseDeckCards (stringifyDeckCards cards)).all (fun p =>
      (decide (p.2.state = some 0) == decide (p.2.iteration = 0)) &&
      (decide (p.2.state = some 0) == decide (p.2.lastReviewDate = none))) = true := by
  rw [parseDeckCards_stringifyDeckCards cards hclean]
  exact hinv

theorem C3_invariant_roundtrip_witness :
    (parseDeckCards (stringifyDeckCards
      [("id1", { type := CardType.BASIC, front := "f", back := "b",
                 state := some 0, easeFactor := 5/2, interval := 0,
                 iteration := 0, stepIndex := 0,
                 lastReviewDate := none, nextReviewDate := none })])).all (fun p =>
      (decide (p.2.state = some 0) == decide (p.2.iteration = 0)) &&
      (decide (p.2.state = some 0) == decide (p.2.lastReviewDate = none))) = true :=
  C3_invariant_roundtrip _ (by decide) (by decide)

/-- C5 (counterexample): no ease floor is applied at load: with the
legitimate configuration minEaseFactor = 1.3 (a §4.2-valid parameter
set), a stored easeFactor of 0.1 loads as 0.1 < 1.3. -/
theorem C5_counterexample :
    (parseDeckCards "id1|f|b|2|0.1|1|1|0|null|null").map
        (fun p => p.2.easeFactor) = [1/10] ∧
    validateParams
      { learningSteps := [1, 10], relearningSteps := [10],
        graduatingInterval := 1, easyInterval := 4, easyBonus := 13/10,
        hardIntervalMultiplier := 6/5, lapseInterval := 1/2,
        minEaseFactor := 13/10, easeFactorIncrement := 3/20,
        easeFactorDecrement := 1/5 } = true ∧
    (1/10 : ℚ) < 13/10 := by
  refine ⟨by decide, by decide, by decide⟩

/-- C5 (amended): `parseDeckFile` applies no ease floor — a loaded card's
easeFactor is exactly the stored value whenever that value parses to a
nonzero number, and the 2.5 fallback otherwise; `easeFactor ≥
minEaseFactor` therefore holds after loading only if the stored value
already satisfies it, while the fallback 2.5 exceeds every §4.2-valid
minEaseFactor (which must be < 2.5). -/
theorem C5_no_ease_floor (id front back stateStr efStr ivStr itStr siStr
    lrStr nrStr : String) (rest : List String) :
    ∃ c, parseCardLine (id :: front :: back :: stateStr :: efStr :: ivStr ::
        itStr :: siStr :: lrStr :: nrStr :: rest) = some (id, c) ∧
      (∀ q, parseFloatChars efStr.data = some q → q ≠ 0 → c.easeFactor = q) ∧
      (parseFloatChars efStr.data = none → c.easeFactor = 5/2) ∧
      (∀ minEase : ℚ, minEase < 5/2 → parseFloatChars efStr.data = none →
        minEase < c.easeFactor) := by
  rw [parseCardLine]
  refine ⟨_, rfl, ?_, ?_, ?_⟩
  · intro q hq hq0
    simp only [hq, if_neg hq0]
  · intro hn
    simp only [hn]
  · intro minEase hlt hn
    simpa only [hn] using hlt

theorem C5_no_ease_floor_witness :
    ∃ c, parseCardLine ["id1", "f", "b", "2", "0.1", "1", "1", "0", "null",
        "null"] = some ("id1", c) ∧ c.easeFactor = 1/10 := by
  obtain ⟨c, h1, h2, _, _⟩ :=
    C5_no_ease_floor "id1" "f" "b" "2" "0.1" "1" "1" "0" "null" "null" []
  exact ⟨c, h1, h2 (1/10) (by decide) (by decide)⟩

/-- C4 (counterexample): the settings layer stores §4.2-violating values:
editing a scalar parameter to `-1` replaces the active value 1.3 by the
negative value, and a step-list edit of `"1,0"` stores a zero step entry. -/
theorem C4_counterexample :
    numericSettingOnChange "-1" (13/10) = -1 ∧ ((-1 : ℚ) < 0) ∧
    stepsSettingOnChange "1,0" [1] = [1, 0] ∧ ¬((0:ℚ) > 0) := by
  refine ⟨by decide, by decide, by decide, by decide⟩

/-- C4 (amended): the settings layer validates only numeric
well-formedness on edits: a scalar edit that fails JS number conversion
(NaN) is ignored and the active value kept, but every convertible value —
including zero and negative ones — is stored unvalidated; likewise a step
edit is ignored only if some comma-separated part is NaN, and otherwise
stored verbatim, including empty-as-zero and non-positive entries.  §4.2
range violations are NOT rejected. -/
theorem C4_nan_only_validation (input : String) (current : ℚ)
    (curSteps : List ℚ) :
    (jsNumberChars (trimChars input.data) = none →
      numericSettingOnChange input current = current) ∧
    (∀ q, jsNumberChars (trimChars input.data) = some q →
      numericSettingOnChange input current = q) ∧
    (isStringValidArray (jsTrim input) = false →
      stepsSettingOnChange input curSteps = curSteps) ∧
    (isStringValidArray (jsTrim input) = true →
      stepsSettingOnChange input curSteps = parseStringToArray (jsTrim input)) := by
  refine ⟨?_, ?_, ?_, ?_⟩
  · intro h
    rw [numericSettingOnChange, h]
  · intro q h
    rw [numericSettingOnChange, h]
  · intro h
    rw [stepsSettingOnChange, h]
    rfl
  · intro h
    rw [stepsSettingOnChange, h]
    rfl

theorem C4_nan_only_validation_witness :
    numericSettingOnChange "abc" (13/10) = 13/10 ∧
    numericSettingOnChange "-1" (13/10) = -1 ∧
    stepsSettingOnChange "x,1" [1] = [1] := by
  refine ⟨(C4_nan_only_validation "abc" (13/10) [1]).1 (by decide),
    (C4_nan_only_validation "-1" (13/10) [1]).2.1 (-1) (by decide),
    (C4_nan_only_validation "x,1" (13/10) [1]).2.2.1 (by decide)⟩

/-- Every transition of the spec-modelled engine stamps the review time,
a present due date, and the incremented iteration counter. -/
theorem transition_spec (card : SpacedCard) (rating : Rating) (now : ℚ)
    (params : AnkiParameters) :
    (transition card rating now params).lastReviewDate = some now ∧
    (transition card rating now params).nextReviewDate.isSome = true ∧
    (transition card rating now params).iteration = card.iteration + 1 := by
  rcases card with ⟨st, si, ef, iv, it, lr, nr⟩
  cases st <;> cases rating <;>
    first
      | (refine ⟨rfl, rfl, rfl⟩)
      | (simp only [transition]; split <;> exact ⟨rfl, rfl, rfl⟩)

/-- C6: `review` fails with `InvalidParameters` exactly when §4.2
validation fails; fails with `InvalidTimestamp` when `now` precedes the
card's last review; and otherwise succeeds with a fully-specified card:
`lastReviewDate = now`, a present `nextReviewDate`, and the iteration
counter advanced — never a partial update.  (Modelled from the spec: the
engine is not under the provided sources.) -/
theorem C6_review_errors (card : SpacedCard) (rating : Rating) (now : ℚ)
    (params : AnkiParameters) :
    (validateParams params = false →
      review card rating now params = Except.error ReviewError.InvalidParameters) ∧
    (validateParams params = true → ∀ lr, card.lastReviewDate = some lr →
      now < lr →
      review card rating now params = Except.error ReviewError.InvalidTimestamp) ∧
    (validateParams params = true →
      (∀ lr, card.lastReviewDate = some lr → lr ≤ now) →
      ∃ c', review card rating now params = Except.ok c' ∧
        c'.lastReviewDate = some now ∧ c'.nextReviewDate.isSome = true ∧
        c'.iteration = card.iteration + 1) := by
  refine ⟨?_, ?_, ?_⟩
  · intro h
    rw [review, h]
    rfl
  · intro h lr hlr hnow
    rw [review, h]
    simp only [Bool.not_true, Bool.false_eq_true, if_false, hlr, if_pos hnow]
  · intro h hts
    rw [review, h]
    simp only [Bool.not_true, Bool.false_eq_true, if_false]
    obtain ⟨h1, h2, h3⟩ := transition_spec card rating now params
    cases hlr : card.lastReviewDate with
    | none => exact ⟨_, rfl, h1, h2, h3⟩
    | some lr =>
      have hc : ¬now < lr := not_lt.2 (hts lr hlr)
      refine ⟨_, ?_, h1, h2, h3⟩
      show (if now < lr then Except.error ReviewError.InvalidTimestamp
        else Except.ok (transition card rating now params)) = _
      rw [if_neg hc]

theorem C6_review_errors_witness :
    review ⟨CardState.NEW, 0, 5/2, 0, 0, none, none⟩ Rating.GOOD 0
      { learningSteps := [], relearningSteps := [10],
        graduatingInterval := 1, easyInterval := 4, easyBonus := 13/10,
        hardIntervalMultiplier := 6/5, lapseInterval := 1/2,
        minEaseFactor := 13/10, easeFactorIncrement := 3/20,
        easeFactorDecrement := 1/5 } = Except.error ReviewError.InvalidParameters ∧
    (∃ c', review ⟨CardState.NEW, 0, 5/2, 0, 0, none, none⟩ Rating.GOOD 0
      { learningSteps := [1, 10], relearningSteps := [10],
        graduatingInterval := 1, easyInterval := 4, easyBonus := 13/10,
        hardIntervalMultiplier := 6/5, lapseInterval := 1/2,
        minEaseFactor := 13/10, easeFactorIncrement := 3/20,
        easeFactorDecrement := 1/5 } = Except.ok c' ∧
      c'.lastReviewDate = some 0 ∧ c'.nextReviewDate.isSome = true ∧
      c'.iteration = 0 + 1) := by
  constructor
  · exact (C6_review_errors _ _ _ _).1 (by decide)
  · exact (C6_review_errors _ _ _ _).2.2 (by decide) (by intro lr h; cases h)

/-- C7: a NEW card is always due (`isDue` is true for every timestamp);
a non-NEW card with a present `nextReviewDate` is due exactly when `now`
has reached it; and the card-list display (`EditCardsModal.render`)
reports a NEW card without a `nextReviewDate` as `'Due now'`.  (`isDue`
is modelled from the spec; the display branch is from the source.) -/
theorem C7_isDue (card : SpacedCard) (now : ℚ) :
    (card.state = CardState.NEW → isDue card now = true) ∧
    (card.state ≠ CardState.NEW → ∀ d, card.nextReviewDate = some d →
      (isDue card now = true ↔ d ≤ now)) ∧
    (card.state = CardState.NEW → card.nextReviewDate = none →
      reviewStatusDisplay card = CardStatusDisplay.dueNow) := by
  refine ⟨?_, ?_, ?_⟩
  · intro h
    rw [isDue, h]
    simp
  · intro h d hd
    rw [isDue, hd]
    simp only [Bool.or_eq_true, decide_eq_true_eq]
    constructor
    · rintro (h1 | h1)
      · exact absurd h1 h
      · exact h1
    · exact fun h1 => Or.inr h1
  · intro h hn
    rw [reviewStatusDisplay, hn]
    simp [h]

theorem C7_isDue_witness :
    isDue ⟨CardState.NEW, 0, 5/2, 0, 0, none, none⟩ 42 = true ∧
    (isDue ⟨CardState.REVIEW, 0, 5/2, 3, 7, some 1, some 10⟩ 42 = true ↔
      (10 : ℚ) ≤ 42) ∧
    reviewStatusDisplay ⟨CardState.NEW, 0, 5/2, 0, 0, none, none⟩
      = CardStatusDisplay.dueNow := by
  refine ⟨(C7_isDue _ 42).1 rfl,
    (C7_isDue _ 42).2.1 (by decide) 10 rfl,
    (C7_isDue ⟨CardState.NEW, 0, 5/2, 0, 0, none, none⟩ 0).2.2 rfl rfl⟩

/-- C8: the DecksManager mutators are atomic on error — a missing deck id
makes `addCard`, `updateCardContent`, `removeCard` and
`updateInformation` report an error with the in-memory decks map
untouched, and a missing card id does the same for `updateCardContent`
and `removeCard`. -/
theorem C8_atomic_errors (st : DecksState) (deckId cardId : String)
    (card : SRItem) (newName newDescription : String) :
    (recGet st.decks deckId = none →
      (DecksManager.addCard st deckId card).1 = st ∧
      (DecksManager.addCard st deckId card).2.isSome = true ∧
      (DecksManager.updateCardContent st deckId card).1 = st ∧
      (DecksManager.updateCardContent st deckId card).2.isSome = true ∧
      (DecksManager.removeCard st deckId cardId).1 = st ∧
      (DecksManager.removeCard st deckId cardId).2.isSome = true ∧
      (DecksManager.updateInformation st deckId newName newDescription).1 = st ∧
      (∃ e, (DecksManager.updateInformation st deckId newName newDescription).2
        = Except.error e)) ∧
    (∀ d, recGet st.decks deckId = some d → recHas d.cards card.id = false →
      (DecksManager.updateCardContent st deckId card).1 = st ∧
      (DecksManager.updateCardContent st deckId card).2.isSome = true) ∧
    (∀ d, recGet st.decks deckId = some d → recHas d.cards cardId = false →
      (DecksManager.removeCard st deckId cardId).1 = st ∧
      (DecksManager.removeCard st deckId cardId).2.isSome = true) := by
  refine ⟨?_, ?_, ?_⟩
  · intro h
    refine ⟨?_, ?_, ?_, ?_, ?_, ?_, ?_, ?_⟩
    · rw [DecksManager.addCard, h]
    · rw [DecksManager.addCard, h]
      rfl
    · rw [DecksManager.updateCardContent, h]
    · rw [DecksManager.updateCardContent, h]
      rfl
    · rw [DecksManager.removeCard, h]
    · rw [DecksManager.removeCard, h]
      rfl
    · rw [DecksManager.updateInformation]
      by_cases hv : DecksManager.isValidFileName (jsTrim newName)
      · simp only [hv, Bool.not_true, Bool.false_eq_true, if_false, h]
      · simp only [Bool.not_eq_true'] at hv
        simp only [hv, Bool.not_false, if_true]
    · rw [DecksManager.updateInformation]
      by_cases hv : DecksManager.isValidFileName (jsTrim newName)
      · simp only [hv, Bool.not_true, Bool.false_eq_true, if_false, h]
        exact ⟨_, rfl⟩
      · simp only [Bool.not_eq_true'] at hv
        simp only [hv, Bool.not_false, if_true]
        exact ⟨_, rfl⟩
  · intro d hd hc
    constructor
    · rw [DecksManager.updateCardContent, hd]
      simp only [hc, Bool.not_false, if_true]
    · rw [DecksManager.updateCardContent, hd]
      simp only [hc, Bool.not_false, if_true]
      rfl
  · intro d hd hc
    constructor
    · rw [DecksManager.removeCard, hd]
      simp only [hc, Bool.not_false, if_true]
    · rw [DecksManager.removeCard, hd]
      simp only [hc, Bool.not_false, if_true]
      rfl

theorem C8_atomic_errors_witness :
    (DecksManager.addCard ⟨[]⟩ "d1" ⟨"c1", "x"⟩).1 = (⟨[]⟩ : DecksState) ∧
    (DecksManager.removeCard
        ⟨[("d1", ⟨"d1", "deck", "", []⟩)]⟩ "d1" "c9").1
      = (⟨[("d1", ⟨"d1", "deck", "", []⟩)]⟩ : DecksState) := by
  refine ⟨((C8_atomic_errors ⟨[]⟩ "d1" "c9" ⟨"c1", "x"⟩ "n" "d").1
    (by decide)).1, ?_⟩
  exact ((C8_atomic_errors ⟨[("d1", ⟨"d1", "deck", "", []⟩)]⟩ "d1" "c9"
    ⟨"c1", "x"⟩ "n" "d").2.2 ⟨"d1", "deck", "", []⟩ (by decide) (by decide)).1

theorem isValidFileName_eq_false_iff (s : String) :
    DecksManager.isValidFileName s = false ↔
      (s = "" ∨ s.length > 255 ∨
       (∃ c ∈ s.data, DecksManager.isInvalidFileNameChar c = true) ∨
       s.data.getLast? = some '.') := by
  rw [DecksManager.isValidFileName]
  split_ifs with h1 h2 h3 h4
  · exact iff_of_true rfl (Or.inl h1)
  · exact iff_of_true rfl (Or.inr (Or.inl h2))
  · exact iff_of_true rfl
      (Or.inr (Or.inr (Or.inl (by simpa [List.any_eq_true] using h3))))
  · exact iff_of_true rfl (Or.inr (Or.inr (Or.inr h4)))
  · refine iff_of_false (by simp) ?_
    rintro (h | h | h | h)
    · exact h1 h
    · exact h2 h
    · exact h3 (by simpa [List.any_eq_true] using h)
    · exact h4 h

/-- C9: `DecksManager.create` throws exactly when the trimmed name is
empty, longer than 255 characters, contains a forbidden filename
character (`< > : " / \ | ? *` or a C0 control `\x00`-`\x1F`), ends with
a period, or equals an existing deck's name; a throwing call leaves the
decks map unchanged, and otherwise the new deck is added under its fresh
id with the trimmed name and returned. -/
theorem C9_create (st : DecksState) (newId deckName description : String) :
    ((∃ e, (DecksManager.create st newId deckName description).2
        = Except.error e) ↔
      (jsTrim deckName = "" ∨ (jsTrim deckName).length > 255 ∨
       (∃ c ∈ (jsTrim deckName).data,
          DecksManager.isInvalidFileNameChar c = true) ∨
       (jsTrim deckName).data.getLast? = some '.' ∨
       (∃ p ∈ st.decks, p.2.name = jsTrim deckName))) ∧
    ((∃ e, (DecksManager.create st newId deckName description).2
        = Except.error e) →
      (DecksManager.create st newId deckName description).1 = st) ∧
    (∀ d, (DecksManager.create st newId deckName description).2
        = Except.ok d →
      (DecksManager.create st newId deckName description).1
          = DecksState.mk (recSet st.decks newId d) ∧
        d.name = jsTrim deckName ∧ d.description = description ∧
        d.id = newId ∧ d.cards = []) := by
  by_cases hv : DecksManager.isValidFileName (jsTrim deckName)
  · by_cases hdup : st.decks.any (fun p => p.2.name == jsTrim deckName)
    · have hcr : DecksManager.create st newId deckName description
          = (st, Except.error ("Deck name already exists: " ++ jsTrim deckName)) := by
        rw [DecksManager.create]
        simp only [hv, Bool.not_true, Bool.false_eq_true, if_false, hdup, if_true]
      refine ⟨?_, ?_, ?_⟩
      · rw [hcr]
        refine iff_of_true ⟨_, rfl⟩ ?_
        refine Or.inr (Or.inr (Or.inr (Or.inr ?_)))
        obtain ⟨p, hp1, hp2⟩ := List.any_eq_true.1 hdup
        exact ⟨p, hp1, by rwa [beq_iff_eq] at hp2⟩
      · intro _
        rw [hcr]
      · intro d hd
        rw [hcr] at hd
        cases hd
    · have hcr : DecksManager.create st newId deckName description
          = (⟨recSet st.decks newId
                ⟨newId, jsTrim deckName, description, []⟩⟩,
             Except.ok ⟨newId, jsTrim deckName, description, []⟩) := by
        rw [DecksManager.create]
        simp only [hv, Bool.not_true, Bool.false_eq_true, if_false, hdup]
      refine ⟨?_, ?_, ?_⟩
      · rw [hcr]
        refine iff_of_false (by simp) ?_
        rintro (h | h | h | h | h)
        · exact absurd ((isValidFileName_eq_false_iff _).2 (Or.inl h))
            (by simp [hv])
        · exact absurd ((isValidFileName_eq_false_iff _).2 (Or.inr (Or.inl h)))
            (by simp [hv])
        · exact absurd
            ((isValidFileName_eq_false_iff _).2 (Or.inr (Or.inr (Or.inl h))))
            (by simp [hv])
        · exact absurd
            ((isValidFileName_eq_false_iff _).2 (Or.inr (Or.inr (Or.inr h))))
            (by simp [hv])
        · have hany : st.decks.any (fun q => q.2.name == jsTrim deckName) = true := by
            obtain ⟨p, hp1, hp2⟩ := h
            simp only [List.any_eq_true, beq_iff_eq]
            exact ⟨p, hp1, hp2⟩
          exact absurd hany hdup
      · intro he
        rw [hcr] at he
        obtain ⟨e, he⟩ := he
        cases he
      · intro d hd
        rw [hcr] at hd
        simp only [Except.ok.injEq] at hd
        subst hd
        rw [hcr]
        exact ⟨rfl, rfl, rfl, rfl, rfl⟩
  · simp only [Bool.not_eq_true] at hv
    have hcr : DecksManager.create st newId deckName description
        = (st, Except.error ("Invalid deck name: " ++ jsTrim deckName)) := by
      rw [DecksManager.create]
      simp only [hv, Bool.not_false, if_true]
    refine ⟨?_, ?_, ?_⟩
    · rw [hcr]
      refine iff_of_true ⟨_, rfl⟩ ?_
      rcases (isValidFileName_eq_false_iff _).1 hv with h | h | h | h
      · exact Or.inl h
      · exact Or.inr (Or.inl h)
      · exact Or.inr (Or.inr (Or.inl h))
      · exact Or.inr (Or.inr (Or.inr (Or.inl h)))
    · intro _
      rw [hcr]
    · intro d hd
      rw [hcr] at hd
      cases hd

theorem C9_create_witness :
    (∃ e, (DecksManager.create ⟨[]⟩ "id9" "bad|name" "d").2
      = Except.error e) ∧
    (DecksManager.create ⟨[]⟩ "id9" " mydeck " "d").1
      = DecksState.mk (recSet ([] : List (String × Deck)) "id9"
          ⟨"id9", "mydeck", "d", []⟩) := by
  constructor
  · exact (C9_create ⟨[]⟩ "id9" "bad|name" "d").1.2
      (Or.inr (Or.inr (Or.inl (by decide))))
  · have h := (C9_create ⟨[]⟩ "id9" " mydeck " "d").2.2
      ⟨"id9", "mydeck", "d", []⟩ (by rfl)
    exact h.1

/-- Whitespace-only input trims to nothing. -/
theorem trimChars_eq_nil_of_all_ws {l : List Char}
    (h : ∀ c ∈ l, jsWS c = true) : trimChars l = [] := by
  have h1 : l.dropWhile jsWS = [] := by
    induction l with
    | nil => rfl
    | cons a t ih =>
      rw [List.dropWhile_cons, h a (by simp)]
      exact if_pos rfl ▸ ih (fun c hc => h c (by simp [hc]))
  rw [trimChars, h1]
  rfl

/-- C10: `translateText` rejects every empty or whitespace-only text with
the error `'Text to translate cannot be empty'` before contacting any
translation service — the entry decision is a rejection, never a request. -/
theorem C10_empty_text_rejected (text sourceLanguage targetLanguage : String)
    (h : ∀ c ∈ text.data, jsWS c = true) :
    translateTextEntry text sourceLanguage targetLanguage
      = TranslateStart.reject "Text to translate cannot be empty" ∧
    (∀ t s₂ t₂, translateTextEntry text sourceLanguage targetLanguage
      ≠ TranslateStart.request t s₂ t₂) := by
  have htrim : trimChars text.data = [] := trimChars_eq_nil_of_all_ws h
  have hcond : (text = "" || (jsTrim text).length == 0) = true := by
    have hlen : (jsTrim text).length = 0 := by
      rw [jsTrim, htrim]
      rfl
    simp [hlen]
  constructor
  · rw [translateTextEntry, if_pos hcond]
  · intro t s₂ t₂
    rw [translateTextEntry, if_pos hcond]
    intro hcontra
    cases hcontra

theorem C10_empty_text_rejected_witness :
    translateTextEntry "   " "en" "es"
      = TranslateStart.reject "Text to translate cannot be empty" :=
  (C10_empty_text_rejected "   " "en" "es" (by decide)).1
